import Mathlib

/-!
# oSpy legacy agent: overlapped-operation tracking

A shallow embedding of `oSpy1/Agent/Legacy/overlapped.cpp`:

* `COverlappedManager.Init`, `COverlappedManager.TrackOperation`,
  `COverlappedManager.MonitorThreadFunc` (as its wait-set construction, its
  sweep loop, the body of one inner-loop iteration taking the result of the
  wait as an argument, and a step function over a model of the wait),
* `COverlappedOperation.construct` (the C++ constructor) and
  `COverlappedOperation.HandleCompletion`.

Conventions of the embedding.

* The process state is one record `World`: the kernel's event objects, the
  heap blocks obtained from `sspy_malloc` that hold `OVERLAPPED` structures,
  the heap of `COverlappedOperation` objects, and the two static members of
  `COverlappedManager`.  Handles and addresses are natural numbers, `0` being
  `NULL`; the value `n + 1` names entry `n` of the corresponding table.
  Allocation (`new`, `sspy_malloc`, `CreateEvent`) is taken to succeed.
* The critical section is not represented: every function of the embedding is
  one atomic transition of `World`.
* `int` and `size_t` counters are natural numbers; the registry is assumed to
  stay far below `2 ^ 31` entries (every entry owns a kernel handle).
* Arrays obtained from `sspy_malloc` are lists of cells, `none` being a cell
  that was never written.  Every access is bounds-checked and a bad access is
  reported as a `Fault`, so that memory safety is a theorem and not a
  convention.
* A completion handler is caller-supplied code.  It is observed through the
  record `World.invoked` of its invocations and through `Env.raises`, which
  tells whether that invocation returns or raises.  `World.dispatched` is a
  history variable recording the calls of `HandleCompletion`.
-/

namespace OSpy

abbrev HANDLE := Nat
abbrev DWORD := Nat
abbrev Addr := Nat

/-- Platform constant of the Windows SDK. -/
def WAIT_OBJECT_0 : DWORD := 0
/-- Platform constant of the Windows SDK. -/
def WAIT_TIMEOUT : DWORD := 258
/-- Platform constant of the Windows SDK. -/
def WAIT_FAILED : DWORD := 4294967295
/-- Platform constant of the Windows SDK. -/
def MAXIMUM_WAIT_OBJECTS : Nat := 64

/-- A kernel event object. -/
structure Event where
  manualReset : Bool
  signaled : Bool
deriving DecidableEq, Repr

/-- The Windows `OVERLAPPED` structure. -/
structure OVERLAPPED where
  Internal : Nat
  InternalHigh : Nat
  Offset : Nat
  OffsetHigh : Nat
  hEvent : HANDLE
deriving DecidableEq, Repr

/-- Data members of `COverlappedOperation`, as initialised by its constructor. -/
structure COverlappedOperation where
  m_clientOverlapped : Addr
  m_data : Addr
  m_completionHandled : Bool
  m_handler : Nat
  m_realOverlapped : Addr
deriving DecidableEq, Repr

/-- Process state. -/
structure World where
  events : List Event
  blocks : List OVERLAPPED
  objects : List COverlappedOperation
  m_opsChanged : HANDLE
  m_operations : List Addr
  dispatched : List Addr
  invoked : List (Nat × Addr)
deriving DecidableEq, Repr

/-- Abnormal outcomes. -/
inductive Fault where
  | outOfBounds
  | uninitialisedRead
  | badPointer
  | callbackRaised (handler : Nat) (op : Addr)
deriving DecidableEq, Repr

/-- What the embedding takes from outside `overlapped.cpp`. -/
structure Env where
  /-- Whether the handler `h`, invoked on operation `op`, raises. -/
  raises : Nat → Addr → Bool
  /-- The member function `COverlappedOperation::HasCompleted`, declared in
  `overlapped.h`. -/
  HasCompleted : World → COverlappedOperation → Bool

/-- Dereference the address `p` in the table `heap`; `NULL` and addresses past
the end have no referent. -/
def deref {α : Type} (heap : List α) (p : Nat) : Option α :=
  if p = 0 then none else heap[p - 1]?

/-- Read cell `i` of an array. -/
def readAt {α : Type} (arr : List (Option α)) (i : Nat) : Except Fault α :=
  match arr[i]? with
  | none => Except.error Fault.outOfBounds
  | some none => Except.error Fault.uninitialisedRead
  | some (some v) => Except.ok v

/-- Write cell `i` of an array. -/
def writeAt {α : Type} (arr : List (Option α)) (i : Nat) (v : α) :
    Except Fault (List (Option α)) :=
  if i < arr.length then Except.ok (arr.set i (some v)) else Except.error Fault.outOfBounds

/-- The allocation wrapper, for an array of `n` cells. -/
def sspy_malloc {α : Type} (n : Nat) : List (Option α) :=
  List.replicate n none

/-! ## Platform primitives -/

/-- Platform primitive `CreateEvent(NULL, bManualReset, bInitialState, NULL)`. -/
def CreateEvent (bManualReset bInitialState : Bool) (W : World) : HANDLE × World :=
  (W.events.length + 1, { W with events := W.events ++ [⟨bManualReset, bInitialState⟩] })

/-- Platform primitive `SetEvent`. -/
def SetEvent (h : HANDLE) (W : World) : World :=
  match deref W.events h with
  | none => W
  | some e => { W with events := W.events.set (h - 1) { e with signaled := true } }

/-- Platform primitive `WaitForSingleObject(h, 0)`: a non-blocking test, which
consumes the signal of an auto-reset event. -/
def WaitForSingleObject (h : HANDLE) (W : World) : DWORD × World :=
  match deref W.events h with
  | none => (WAIT_FAILED, W)
  | some e =>
    if e.signaled then
      (WAIT_OBJECT_0,
        if e.manualReset then W
        else { W with events := W.events.set (h - 1) { e with signaled := false } })
    else (WAIT_TIMEOUT, W)

/-- Whether `h` names an event that is signaled. -/
def eventSignaled (W : World) (h : HANDLE) : Bool :=
  match deref W.events h with
  | some e => e.signaled
  | none => false

/-- Whether cell `i` of a handle array names an event that is signaled. -/
def slotSignaled (W : World) (handles : List (Option HANDLE)) (i : Nat) : Bool :=
  match handles[i]? with
  | some (some h) => eventSignaled W h
  | _ => false

/-- Whether cell `i` of a handle array names an event. -/
def slotValid (W : World) (handles : List (Option HANDLE)) (i : Nat) : Bool :=
  match handles[i]? with
  | some (some h) => (deref W.events h).isSome
  | _ => false

/-- Platform primitive `WaitForMultipleObjects(nCount, lpHandles, FALSE, INFINITE)`,
after its documented contract: it fails on an empty array, on more than
`MAXIMUM_WAIT_OBJECTS` handles and on an invalid handle; otherwise it returns
the smallest index whose object is signaled, consuming the signal of an
auto-reset event; `none` stands for a wait that has not returned. -/
def WaitForMultipleObjects (nCount : Nat) (lpHandles : List (Option HANDLE)) (W : World) :
    Option (DWORD × World) :=
  if nCount = 0 ∨ MAXIMUM_WAIT_OBJECTS < nCount then some (WAIT_FAILED, W)
  else if (List.range nCount).all (slotValid W lpHandles) = false then some (WAIT_FAILED, W)
  else
    match (List.range nCount).find? (slotSignaled W lpHandles) with
    | none => none
    | some i =>
      match lpHandles[i]? with
      | some (some h) => some (WAIT_OBJECT_0 + i, (WaitForSingleObject h W).2)
      | _ => some (WAIT_FAILED, W)

/-! ## COverlappedOperation -/

/-- The constructor `COverlappedOperation::COverlappedOperation`, together with
the `new` that allocates the object: returns the address of the new object. -/
def COverlappedOperation.construct (clientOverlapped : Addr) (data : Addr) (handler : Nat)
    (W : World) : Addr × World :=
  -- m_realOverlapped = sspy_malloc(sizeof(OVERLAPPED)); memset(m_realOverlapped, 0, ...)
  let m_realOverlapped := W.blocks.length + 1
  let W1 := { W with blocks := W.blocks ++ [⟨0, 0, 0, 0, 0⟩] }
  -- m_realOverlapped->hEvent = CreateEvent(NULL, TRUE, FALSE, NULL)
  let r := CreateEvent true false W1
  let W2 := { r.2 with blocks := r.2.blocks.set (m_realOverlapped - 1) ⟨0, 0, 0, 0, r.1⟩ }
  (W2.objects.length + 1,
    { W2 with objects := W2.objects ++ [⟨clientOverlapped, data, false, handler, m_realOverlapped⟩] })

/-- Modelled from the spec: the accessor `GetRealOverlapped` of `overlapped.h`,
which yields the operation's own descriptor. -/
def COverlappedOperation.GetRealOverlapped (op : COverlappedOperation) : Addr :=
  op.m_realOverlapped

/-- Modelled from the spec: `HasCompleted` of `overlapped.h`, a non-blocking
check of the current state of the operation's completion signal. -/
def COverlappedOperation.HasCompleted (W : World) (op : COverlappedOperation) : Bool :=
  match deref W.blocks op.GetRealOverlapped with
  | none => false
  | some ov => (WaitForSingleObject ov.hEvent W).1 = WAIT_OBJECT_0

/-- The member function `COverlappedOperation::HandleCompletion`, called on the
object at address `this`. -/
def COverlappedOperation.HandleCompletion (env : Env) (this : Addr) (W : World) :
    World × Option Fault :=
  match deref W.objects this with
  | none => (W, some Fault.badPointer)
  | some op =>
    let W1 := { W with dispatched := W.dispatched ++ [this] }
    if !op.m_completionHandled then
      -- m_completionHandled = true;
      let W2 := { W1 with
        objects := W1.objects.set (this - 1) { op with m_completionHandled := true } }
      -- m_handler(this);
      let W3 := { W2 with invoked := W2.invoked ++ [(op.m_handler, this)] }
      (W3, if env.raises op.m_handler this
           then some (Fault.callbackRaised op.m_handler this) else none)
    else (W1, none)

/-- `n` successive calls of `HandleCompletion` on the same object, each made
whatever the outcome of the one before. -/
def COverlappedOperation.HandleCompletionTimes (env : Env) (this : Addr) : Nat → World → World
  | 0, W => W
  | n + 1, W =>
    COverlappedOperation.HandleCompletionTimes env this n
      (COverlappedOperation.HandleCompletion env this W).1

/-! ## COverlappedManager -/

/-- The state before `COverlappedManager::Init`: the static members are zero
and empty. -/
def World.initial : World :=
  { events := [], blocks := [], objects := [], m_opsChanged := 0, m_operations := [],
    dispatched := [], invoked := [] }

/-- `COverlappedManager::Init`, without the thread it starts. -/
def COverlappedManager.Init (W : World) : World :=
  let r := CreateEvent false false W
  { r.2 with m_opsChanged := r.1 }

/-- `COverlappedManager::TrackOperation`.  The in-out parameter
`OVERLAPPED **overlapped` is the argument `overlapped` (the value of
`*overlapped` on entry) and the first component of the result (its value on
return). -/
def COverlappedManager.TrackOperation (overlapped : Addr) (data : Addr) (handler : Nat)
    (W : World) : Addr × World :=
  -- COverlappedOperation *op = new COverlappedOperation(*overlapped, data, handler);
  let r := COverlappedOperation.construct overlapped data handler W
  let op := r.1
  let W1 := r.2
  -- *overlapped = op->GetRealOverlapped();
  let out := match deref W1.objects op with
    | some o => o.GetRealOverlapped
    | none => 0
  -- m_operations.push_back(op);
  let W2 := { W1 with m_operations := W1.m_operations ++ [op] }
  -- SetEvent(m_opsChanged);
  (out, SetEvent W2.m_opsChanged W2)

/-- The local variables of one iteration of the outer loop of
`MonitorThreadFunc`. -/
structure WaitSet where
  handles : List (Option HANDLE)
  operations : List (Option Addr)
  maxHandleCount : Nat
  handleCount : Nat
deriving DecidableEq, Repr

/-- The `for` loop of `MonitorThreadFunc` that fills the arrays, over the
entries of `m_operations` still to visit. -/
def COverlappedManager.MonitorThreadFunc.fill (env : Env) (W : World) :
    List Addr → WaitSet → Except Fault WaitSet
  | [], ws => Except.ok ws
  | op :: rest, ws =>
    match deref W.objects op with
    | none => Except.error Fault.badPointer
    | some o =>
      if !env.HasCompleted W o then
        match deref W.blocks o.GetRealOverlapped with
        | none => Except.error Fault.badPointer
        | some ov =>
          match writeAt ws.handles ws.handleCount ov.hEvent with
          | Except.error f => Except.error f
          | Except.ok hs =>
            match writeAt ws.operations ws.handleCount op with
            | Except.error f => Except.error f
            | Except.ok os =>
              COverlappedManager.MonitorThreadFunc.fill env W rest
                { ws with handles := hs, operations := os, handleCount := ws.handleCount + 1 }
      else COverlappedManager.MonitorThreadFunc.fill env W rest ws

/-- The first half of an iteration of `MonitorThreadFunc`: "make a list of
operations not yet completed". -/
def COverlappedManager.MonitorThreadFunc.build (env : Env) (W : World) :
    Except Fault WaitSet :=
  let maxHandleCount := 1 + W.m_operations.length
  let handles : List (Option HANDLE) := sspy_malloc maxHandleCount
  let operations : List (Option Addr) := sspy_malloc maxHandleCount
  match writeAt handles 0 W.m_opsChanged with
  | Except.error f => Except.error f
  | Except.ok hs =>
    match writeAt operations 0 0 with
    | Except.error f => Except.error f
    | Except.ok os =>
      COverlappedManager.MonitorThreadFunc.fill env W W.m_operations
        { handles := hs, operations := os, maxHandleCount := maxHandleCount, handleCount := 1 }

/-- The loop `for (int i = result - WAIT_OBJECT_0; i < handleCount; i++)`:
`sweep env ws n i W` runs the `n` iterations that start at index `i`; the
caller passes `n = handleCount - i`. -/
def COverlappedManager.MonitorThreadFunc.sweep (env : Env) (ws : WaitSet) :
    Nat → Nat → World → World × Option Fault
  | 0, _, W => (W, none)
  | n + 1, i, W =>
    if 0 < i then
      match readAt ws.handles i with
      | Except.error f => (W, some f)
      | Except.ok h =>
        let r := WaitForSingleObject h W
        if r.1 = WAIT_OBJECT_0 then
          match readAt ws.operations i with
          | Except.error f => (r.2, some f)
          | Except.ok p =>
            match COverlappedOperation.HandleCompletion env p r.2 with
            | (W2, some f) => (W2, some f)
            | (W2, none) => COverlappedManager.MonitorThreadFunc.sweep env ws n (i + 1) W2
        else COverlappedManager.MonitorThreadFunc.sweep env ws n (i + 1) r.2
    else COverlappedManager.MonitorThreadFunc.sweep env ws n (i + 1) W

/-- Where the monitor thread stands between two of its steps. -/
inductive Control where
  /-- At the top of `while (true)`. -/
  | rebuild
  /-- In `while (!operationsChanged)`, about to wait on the wait-set. -/
  | waiting (ws : WaitSet)
  /-- Ended by a fault. -/
  | crashed (f : Fault)
deriving DecidableEq, Repr

/-- The body of `while (!operationsChanged)` once `WaitForMultipleObjects` has
returned `result`. -/
def COverlappedManager.MonitorThreadFunc.wake (env : Env) (ws : WaitSet) (result : DWORD)
    (W : World) : Control × World :=
  if WAIT_OBJECT_0 ≤ result ∧ result < WAIT_OBJECT_0 + ws.handleCount then
    -- operationsChanged = true;
    match COverlappedManager.MonitorThreadFunc.sweep env ws
        (ws.handleCount - (result - WAIT_OBJECT_0)) (result - WAIT_OBJECT_0) W with
    | (W1, some f) => (Control.crashed f, W1)
    | (W1, none) => (Control.rebuild, W1)
  else (Control.waiting ws, W)

/-- One step of `MonitorThreadFunc`; `none` when the thread is blocked in the
wait or has ended. -/
def COverlappedManager.MonitorThreadFunc.step (env : Env) :
    Control × World → Option (Control × World)
  | (Control.rebuild, W) =>
    match COverlappedManager.MonitorThreadFunc.build env W with
    | Except.error f => some (Control.crashed f, W)
    | Except.ok ws => some (Control.waiting ws, W)
  | (Control.waiting ws, W) =>
    match WaitForMultipleObjects ws.handleCount ws.handles W with
    | none => none
    | some (result, W1) => some (COverlappedManager.MonitorThreadFunc.wake env ws result W1)
  | (Control.crashed _, _) => none

/-- Iterate `step` up to `n` times, stopping where the thread blocks or ends. -/
def COverlappedManager.MonitorThreadFunc.run (env : Env) : Nat → Control × World → Control × World
  | 0, s => s
  | n + 1, s =>
    match COverlappedManager.MonitorThreadFunc.step env s with
    | none => s
    | some s1 => COverlappedManager.MonitorThreadFunc.run env n s1

/-- The handle `op->GetRealOverlapped()->hEvent` of the operation at `p`. -/
def hEventOf (W : World) (p : Addr) : HANDLE :=
  match deref W.objects p with
  | some o =>
    match deref W.blocks o.GetRealOverlapped with
    | some ov => ov.hEvent
    | none => 0
  | none => 0

/-- The value of `op->HasCompleted()` for the operation at `p`. -/
def completedAt (env : Env) (W : World) (p : Addr) : Bool :=
  match deref W.objects p with
  | some o => env.HasCompleted W o
  | none => false

/-- The address `p` names an operation object whose descriptor block exists. -/
def opValid (W : World) (p : Addr) : Bool :=
  match deref W.objects p with
  | some o => (deref W.blocks o.GetRealOverlapped).isSome
  | none => false

/-- Every entry of the registry names an operation built by the constructor. -/
def RegistryValid (W : World) : Prop :=
  ∀ p ∈ W.m_operations, opValid W p = true

instance (W : World) : Decidable (RegistryValid W) := by
  unfold RegistryValid; infer_instance

/-- The registry entries that go into the wait-set, in registry order. -/
def pendingOps (env : Env) (W : World) : List Addr :=
  W.m_operations.filter (fun p => !completedAt env W p)

/-- The operation address held by cell `i` of the wait-set (`NULL` when the
cell holds none). -/
def WaitSet.opAt (ws : WaitSet) (i : Nat) : Addr :=
  match ws.operations[i]? with
  | some (some p) => p
  | _ => 0

/-- Cell `i` of the wait-set holds a handle and the address of an existing
operation object. -/
def cellOK (W : World) (ws : WaitSet) (i : Nat) : Bool :=
  match ws.handles[i]?, ws.operations[i]? with
  | some (some _), some (some p) => (deref W.objects p).isSome
  | _, _ => false

/-- The handle `h` does not name an auto-reset event. -/
def notAutoReset (W : World) (h : HANDLE) : Bool :=
  match deref W.events h with
  | some e => e.manualReset
  | none => true

/-- Cell `i` of the wait-set pairs the address of an existing operation object
with a handle that does not name an auto-reset event. -/
def slotOK (W : World) (ws : WaitSet) (i : Nat) : Bool :=
  cellOK W ws i &&
    (match ws.handles[i]? with
     | some (some h) => notAutoReset W h
     | _ => false)

/-- Every operation cell `1 .. handleCount - 1` of the wait-set is well formed. -/
def WaitSetOK (ws : WaitSet) (W : World) : Prop :=
  ∀ i ∈ List.range' 1 (ws.handleCount - 1), slotOK W ws i = true

instance (ws : WaitSet) (W : World) : Decidable (WaitSetOK ws W) := by
  unfold WaitSetOK; infer_instance

/-- The cells `k ≤ i < handleCount`, `i ≠ 0`, whose signal is signaled, in
increasing order. -/
def dueSlots (W : World) (ws : WaitSet) (k : Nat) : List Nat :=
  (List.range' k (ws.handleCount - k)).filter
    (fun i => decide (0 < i) && slotSignaled W ws.handles i)

/-- The dispatched flag of the operation at `p` (true when there is none). -/
def flagOf (W : World) (p : Addr) : Bool :=
  match deref W.objects p with
  | some o => o.m_completionHandled
  | none => true

/-- The handler of the operation at `p`. -/
def handlerOf (W : World) (p : Addr) : Nat :=
  match deref W.objects p with
  | some o => o.m_handler
  | none => 0

/-- How many times a completion callback has been invoked on the operation at `p`. -/
def invokedOn (W : World) (p : Addr) : Nat :=
  (W.invoked.map Prod.snd).count p

/-- The calls of `HandleCompletion` made since the history `before`. -/
def newCalls (before : World) (after : World) : List Addr :=
  after.dispatched.drop before.dispatched.length

/-- Successive calls of `HandleCompletion` on a list of operations, ended by
the first fault. -/
def dispatchAll (env : Env) : List Addr → World → World × Option Fault
  | [], W => (W, none)
  | p :: ps, W =>
    match COverlappedOperation.HandleCompletion env p W with
    | (W2, some f) => (W2, some f)
    | (W2, none) => dispatchAll env ps W2

/-- The address `p` names an operation object as the constructor leaves it: its
descriptor block exists and the handle in it does not name an auto-reset event. -/
def opSound (W : World) (p : Addr) : Bool :=
  match deref W.objects p with
  | some o =>
    match deref W.blocks o.GetRealOverlapped with
    | some ov => notAutoReset W ov.hEvent
    | none => false
  | none => false

/-- Every entry of the registry satisfies `opSound`. -/
def RegistrySound (W : World) : Prop :=
  ∀ p ∈ W.m_operations, opSound W p = true

instance (W : World) : Decidable (RegistrySound W) := by
  unfold RegistrySound; infer_instance

/-- An outcome that is not a memory fault: normal completion, or a handler
that raised. -/
def Benign (f : Option Fault) : Prop :=
  f = none ∨ ∃ h p, f = some (Fault.callbackRaised h p)

/-- An environment whose handlers return normally. -/
def quietEnv : Env := ⟨fun _ _ => false, COverlappedOperation.HasCompleted⟩

/-- An environment in which handler `7` raises. -/
def raisingEnv : Env := ⟨fun h _ => h == 7, COverlappedOperation.HasCompleted⟩

/-- `TrackOperation` called `n` times. -/
def trackMany : Nat → World → World
  | 0, W => W
  | n + 1, W => (COverlappedManager.TrackOperation 0 0 0 (trackMany n W)).2

/-- The wait-set that `build` makes, or an empty one when `build` faults. -/
def waitSetOf (env : Env) (W : World) : WaitSet :=
  match COverlappedManager.MonitorThreadFunc.build env W with
  | Except.ok ws => ws
  | Except.error _ => ⟨[], [], 0, 0⟩

/-- The state after `Init` and two calls of `TrackOperation`, with handlers `7` and `8`. -/
def twoTracked : World :=
  (COverlappedManager.TrackOperation 100 200 8
    (COverlappedManager.TrackOperation 100 200 7 (COverlappedManager.Init World.initial)).2).2

/-- The wait-set that `build` makes in `twoTracked`. -/
def twoWaitSet : WaitSet := waitSetOf quietEnv twoTracked

/-- `twoTracked` once both completion signals have been set. -/
def bothSignaled : World := SetEvent 3 (SetEvent 2 twoTracked)

/-- `twoTracked` once the second completion signal alone has been set. -/
def secondSignaled : World := SetEvent 3 twoTracked

/-- Sixty-four tracked operations: one more handle than a single wait accepts. -/
def manyTracked : World := trackMany 64 (COverlappedManager.Init World.initial)

/-- The wait-set that `build` makes in `manyTracked`. -/
def manyWaitSet : WaitSet := waitSetOf quietEnv manyTracked

/-! ## Supporting lemmas -/

open COverlappedManager COverlappedOperation

theorem deref_isSome_iff {α : Type} (heap : List α) (p : Nat) :
    (deref heap p).isSome = true ↔ 0 < p ∧ p ≤ heap.length := by
  unfold deref
  split
  · simp; omega
  · rw [Option.isSome_iff_exists]
    constructor
    · rintro ⟨a, ha⟩
      have := (List.getElem?_eq_some.mp ha).1
      omega
    · rintro ⟨_, h2⟩
      exact ⟨heap[p - 1], List.getElem?_eq_getElem (by omega)⟩

theorem deref_set_self {α : Type} (heap : List α) (p : Nat) (a b : α)
    (h : deref heap p = some a) : deref (heap.set (p - 1) b) p = some b := by
  unfold deref at *
  split at h
  · simp at h
  · rename_i hp
    simp only [hp, if_false]
    have := (List.getElem?_eq_some.mp h).1
    simp [List.getElem?_set, this]

theorem deref_set_other {α : Type} (heap : List α) (p q : Nat) (b : α)
    (hp : 0 < p) (hpq : q ≠ p) : deref (heap.set (p - 1) b) q = deref heap q := by
  unfold deref
  split
  · rfl
  · rw [List.getElem?_set_ne]
    omega

/-- The call of `HandleCompletion` on an operation not yet dispatched. -/
theorem HandleCompletion_fresh (env : Env) (p : Addr) (W : World) (o : COverlappedOperation)
    (hp : deref W.objects p = some o) (hf : o.m_completionHandled = false) :
    HandleCompletion env p W =
      ({ W with
          dispatched := W.dispatched ++ [p]
          objects := W.objects.set (p - 1) { o with m_completionHandled := true }
          invoked := W.invoked ++ [(o.m_handler, p)] },
        if env.raises o.m_handler p then some (Fault.callbackRaised o.m_handler p) else none) := by
  simp [HandleCompletion, hp, hf]

/-- The call of `HandleCompletion` on an operation already dispatched. -/
theorem HandleCompletion_done (env : Env) (p : Addr) (W : World) (o : COverlappedOperation)
    (hp : deref W.objects p = some o) (hf : o.m_completionHandled = true) :
    HandleCompletion env p W = ({ W with dispatched := W.dispatched ++ [p] }, none) := by
  simp [HandleCompletion, hp, hf]

theorem HandleCompletion_bad (env : Env) (p : Addr) (W : World)
    (hp : deref W.objects p = none) :
    HandleCompletion env p W = (W, some Fault.badPointer) := by
  simp [HandleCompletion, hp]

theorem HandleCompletionTimes_done (env : Env) (p : Addr) (o : COverlappedOperation)
    (n : Nat) (W : World)
    (hp : deref W.objects p = some o) (hf : o.m_completionHandled = true) :
    (HandleCompletionTimes env p n W).objects = W.objects ∧
    (HandleCompletionTimes env p n W).invoked = W.invoked ∧
    (HandleCompletionTimes env p n W).events = W.events ∧
    (HandleCompletionTimes env p n W).blocks = W.blocks ∧
    (HandleCompletionTimes env p n W).m_operations = W.m_operations ∧
    (HandleCompletionTimes env p n W).m_opsChanged = W.m_opsChanged := by
  induction n generalizing W with
  | zero => simp [HandleCompletionTimes]
  | succ n ih =>
    simp only [HandleCompletionTimes, HandleCompletion_done env p W o hp hf]
    have := ih { W with dispatched := W.dispatched ++ [p] } hp
    simpa using this

theorem deref_append_new {α : Type} (heap : List α) (a : α) :
    deref (heap ++ [a]) (heap.length + 1) = some a := by
  simp [deref]

theorem deref_append_old {α : Type} (heap : List α) (a : α) (p : Nat)
    (h : (deref heap p).isSome = true) : deref (heap ++ [a]) p = deref heap p := by
  have hb := (deref_isSome_iff heap p).mp h
  unfold deref
  split
  · rfl
  · rw [List.getElem?_append_left (by omega)]

theorem deref_length_succ {α : Type} (heap : List α) :
    deref heap (heap.length + 1) = none := by
  simp [deref]

theorem construct_eq (overlapped data : Addr) (handler : Nat) (W : World) :
    COverlappedOperation.construct overlapped data handler W =
      (W.objects.length + 1,
        { W with
            events := W.events ++ [⟨true, false⟩]
            blocks := W.blocks ++ [⟨0, 0, 0, 0, W.events.length + 1⟩]
            objects := W.objects ++
              [⟨overlapped, data, false, handler, W.blocks.length + 1⟩] }) := by
  simp [COverlappedOperation.construct, CreateEvent]

/-- The state that `TrackOperation` returns, in closed form. -/
theorem TrackOperation_eq (overlapped data : Addr) (handler : Nat) (W : World) :
    TrackOperation overlapped data handler W =
      (W.blocks.length + 1,
        SetEvent W.m_opsChanged
          { W with
            events := W.events ++ [⟨true, false⟩]
            blocks := W.blocks ++ [⟨0, 0, 0, 0, W.events.length + 1⟩]
            objects := W.objects ++
              [⟨overlapped, data, false, handler, W.blocks.length + 1⟩]
            m_operations := W.m_operations ++ [W.objects.length + 1] }) := by
  simp [TrackOperation, construct_eq, deref_append_new, GetRealOverlapped]

theorem SetEvent_fields (h : HANDLE) (W : World) :
    (SetEvent h W).blocks = W.blocks ∧ (SetEvent h W).objects = W.objects ∧
    (SetEvent h W).m_opsChanged = W.m_opsChanged ∧
    (SetEvent h W).m_operations = W.m_operations ∧
    (SetEvent h W).dispatched = W.dispatched ∧ (SetEvent h W).invoked = W.invoked := by
  unfold SetEvent
  split <;> simp

theorem SetEvent_self (h : HANDLE) (W : World) (e : Event) (he : deref W.events h = some e) :
    deref (SetEvent h W).events h = some { e with signaled := true } := by
  simp only [SetEvent, he]
  exact deref_set_self _ _ _ _ he

theorem SetEvent_other (h g : HANDLE) (W : World) (hg : g ≠ h) :
    deref (SetEvent h W).events g = deref W.events g := by
  unfold SetEvent
  split
  · rfl
  · rename_i e he
    have : 0 < h := by
      have := (deref_isSome_iff W.events h).mp (by simp [he])
      exact this.1
    exact deref_set_other _ _ _ _ this hg

theorem take_set_self {α : Type} (l : List α) (i : Nat) (a : α) :
    (l.set i a).take i = l.take i := by
  rw [List.set_take, List.set_eq_of_length_le]
  simp

theorem take_set_succ {α : Type} (l : List α) (i : Nat) (a : α) (h : i < l.length) :
    (l.set i a).take (i + 1) = l.take i ++ [a] := by
  rw [List.take_succ, take_set_self]
  simp [h]

/-- The filling loop succeeds when the arrays have room for every entry still to
visit, and appends to the filled part of both arrays exactly the entries for
which `HasCompleted()` is false. -/
theorem fill_spec (env : Env) (W : World) (rest : List Addr) :
    ∀ ws : WaitSet, (∀ p ∈ rest, opValid W p = true) →
      ws.operations.length = ws.handles.length →
      ws.handleCount + rest.length ≤ ws.handles.length →
      ∃ ws1, MonitorThreadFunc.fill env W rest ws = Except.ok ws1 ∧
        ws1.handleCount =
          ws.handleCount + (rest.filter (fun p => !completedAt env W p)).length ∧
        ws1.handles.length = ws.handles.length ∧
        ws1.operations.length = ws.operations.length ∧
        ws1.maxHandleCount = ws.maxHandleCount ∧
        ws1.handles.take ws1.handleCount = ws.handles.take ws.handleCount ++
          (rest.filter (fun p => !completedAt env W p)).map (fun p => some (hEventOf W p)) ∧
        ws1.operations.take ws1.handleCount = ws.operations.take ws.handleCount ++
          (rest.filter (fun p => !completedAt env W p)).map some := by
  induction rest with
  | nil =>
    intro ws _ _ _
    exact ⟨ws, rfl, by simp, rfl, rfl, rfl, by simp, by simp⟩
  | cons p rest ih =>
    intro ws hv hlen hcap
    have hvp := hv p (List.mem_cons_self _ _)
    have hvr : ∀ q ∈ rest, opValid W q = true := fun q hq => hv q (List.mem_cons_of_mem _ hq)
    simp only [List.length_cons] at hcap
    unfold opValid at hvp
    cases ho : deref W.objects p with
    | none => simp [ho] at hvp
    | some o =>
      simp only [ho] at hvp
      obtain ⟨ov, hov⟩ := Option.isSome_iff_exists.mp hvp
      cases hc : env.HasCompleted W o with
      | true =>
        have hcp : completedAt env W p = true := by simp [completedAt, ho, hc]
        obtain ⟨ws1, h1, h2, h3, h4, h5, h6, h7⟩ := ih ws hvr hlen (by omega)
        refine ⟨ws1, ?_, ?_, h3, h4, h5, ?_, ?_⟩
        · simp [MonitorThreadFunc.fill, ho, hc, h1]
        · simp [List.filter_cons, hcp, h2]
        · simp [List.filter_cons, hcp, h6]
        · simp [List.filter_cons, hcp, h7]
      | false =>
        have hcp : completedAt env W p = false := by simp [completedAt, ho, hc]
        have hev : hEventOf W p = ov.hEvent := by simp [hEventOf, ho, hov]
        have hlt : ws.handleCount < ws.handles.length := by omega
        have hlt2 : ws.handleCount < ws.operations.length := by omega
        obtain ⟨ws1, h1, h2, h3, h4, h5, h6, h7⟩ :=
          ih { ws with handles := ws.handles.set ws.handleCount (some ov.hEvent),
                       operations := ws.operations.set ws.handleCount (some p),
                       handleCount := ws.handleCount + 1 } hvr (by simp [hlen])
            (by simp; omega)
        refine ⟨ws1, ?_, ?_, ?_, ?_, h5, ?_, ?_⟩
        · simp [MonitorThreadFunc.fill, ho, hc, hov, writeAt, hlt, hlt2, h1]
        · simp [List.filter_cons, hcp, h2]; omega
        · simpa using h3
        · simpa using h4
        · simp only [take_set_succ _ _ _ hlt] at h6
          simp [List.filter_cons, hcp, h6, hev]
        · simp only [take_set_succ _ _ _ hlt2] at h7
          simp [List.filter_cons, hcp, h7]

theorem deref_set {α : Type} (heap : List α) (p q : Nat) (a b : α)
    (h : deref heap q = some a) :
    deref (heap.set (q - 1) b) p = if p = q then some b else deref heap p := by
  by_cases hpq : p = q
  · subst hpq; simp [deref_set_self _ _ _ _ h]
  · have hq := ((deref_isSome_iff heap q).mp (by simp [h])).1
    simp [hpq, deref_set_other _ _ _ _ hq hpq]

/-- What `HandleCompletion` leaves untouched. -/
theorem hc_frame (env : Env) (q : Addr) (W : World) :
    (HandleCompletion env q W).1.events = W.events ∧
    (HandleCompletion env q W).1.blocks = W.blocks ∧
    (HandleCompletion env q W).1.m_operations = W.m_operations ∧
    (HandleCompletion env q W).1.m_opsChanged = W.m_opsChanged ∧
    (HandleCompletion env q W).1.objects.length = W.objects.length := by
  unfold HandleCompletion
  split
  · simp
  · split <;> simp

theorem hc_valid (env : Env) (q p : Addr) (W : World) :
    (deref (HandleCompletion env q W).1.objects p).isSome = (deref W.objects p).isSome := by
  have h := (hc_frame env q W).2.2.2.2
  rw [Bool.eq_iff_iff, deref_isSome_iff, deref_isSome_iff, h]

theorem hc_handlerOf (env : Env) (q p : Addr) (W : World) :
    handlerOf (HandleCompletion env q W).1 p = handlerOf W p := by
  cases ho : deref W.objects q with
  | none => rw [HandleCompletion_bad env q W ho]
  | some o =>
    cases hf : o.m_completionHandled with
    | true => rw [HandleCompletion_done env q W o ho hf]; rfl
    | false =>
      rw [HandleCompletion_fresh env q W o ho hf]
      simp only [handlerOf, deref_set _ p q o _ ho]
      by_cases hpq : p = q
      · subst hpq; simp [ho]
      · simp [hpq]

theorem hc_flagOf (env : Env) (q p : Addr) (W : World) :
    flagOf (HandleCompletion env q W).1 p = if p = q then true else flagOf W p := by
  cases ho : deref W.objects q with
  | none =>
    rw [HandleCompletion_bad env q W ho]
    by_cases hpq : p = q
    · subst hpq; simp [flagOf, ho]
    · simp [hpq]
  | some o =>
    cases hf : o.m_completionHandled with
    | true =>
      rw [HandleCompletion_done env q W o ho hf]
      by_cases hpq : p = q
      · subst hpq; simp [flagOf, ho, hf]
      · simp [hpq, flagOf]
    | false =>
      rw [HandleCompletion_fresh env q W o ho hf]
      simp only [flagOf, deref_set _ p q o _ ho]
      by_cases hpq : p = q
      · subst hpq; simp
      · simp [hpq]

theorem hc_dispatched (env : Env) (q : Addr) (W : World)
    (hq : (deref W.objects q).isSome = true) :
    (HandleCompletion env q W).1.dispatched = W.dispatched ++ [q] := by
  obtain ⟨o, ho⟩ := Option.isSome_iff_exists.mp hq
  unfold HandleCompletion
  simp only [ho]
  split <;> rfl

theorem hc_dispatched_any (env : Env) (q : Addr) (W : World) :
    (HandleCompletion env q W).1.dispatched = W.dispatched ++ [q] ∧
        (deref W.objects q).isSome = true ∨
    (HandleCompletion env q W) = (W, some Fault.badPointer) := by
  cases ho : deref W.objects q with
  | none => right; exact HandleCompletion_bad env q W ho
  | some o => left; exact ⟨hc_dispatched env q W (by simp [ho]), rfl⟩

theorem hc_invoked (env : Env) (q : Addr) (W : World) :
    (HandleCompletion env q W).1.invoked =
      W.invoked ++ (if flagOf W q = false then [(handlerOf W q, q)] else []) := by
  cases ho : deref W.objects q with
  | none => rw [HandleCompletion_bad env q W ho]; simp [flagOf, ho]
  | some o =>
    cases hf : o.m_completionHandled with
    | true => rw [HandleCompletion_done env q W o ho hf]; simp [flagOf, ho, hf]
    | false => rw [HandleCompletion_fresh env q W o ho hf]; simp [flagOf, handlerOf, ho, hf]

theorem hc_fault (env : Env) (q : Addr) (W : World)
    (hq : (deref W.objects q).isSome = true) :
    (HandleCompletion env q W).2 =
      if flagOf W q = false ∧ env.raises (handlerOf W q) q = true
      then some (Fault.callbackRaised (handlerOf W q) q) else none := by
  obtain ⟨o, ho⟩ := Option.isSome_iff_exists.mp hq
  cases hf : o.m_completionHandled with
  | true => rw [HandleCompletion_done env q W o ho hf]; simp [flagOf, ho, hf]
  | false => rw [HandleCompletion_fresh env q W o ho hf]; simp [flagOf, handlerOf, ho, hf]

theorem dispatchAll_cons_ok (env : Env) (q : Addr) (ps : List Addr) (W : World)
    (h : (HandleCompletion env q W).2 = none) :
    dispatchAll env (q :: ps) W = dispatchAll env ps (HandleCompletion env q W).1 := by
  rw [dispatchAll]
  cases hr : HandleCompletion env q W with
  | mk W2 f => rw [hr] at h; simp at h; subst h; rfl

theorem dispatchAll_cons_fault (env : Env) (q : Addr) (ps : List Addr) (W : World) (f : Fault)
    (h : (HandleCompletion env q W).2 = some f) :
    dispatchAll env (q :: ps) W = ((HandleCompletion env q W).1, some f) := by
  rw [dispatchAll]
  cases hr : HandleCompletion env q W with
  | mk W2 g => rw [hr] at h; simp at h; subst h; rfl

theorem dispatchAll_frame (env : Env) (ps : List Addr) :
    ∀ W : World,
      (dispatchAll env ps W).1.events = W.events ∧
      (dispatchAll env ps W).1.blocks = W.blocks ∧
      (dispatchAll env ps W).1.m_operations = W.m_operations ∧
      (dispatchAll env ps W).1.m_opsChanged = W.m_opsChanged ∧
      (∀ p, (deref (dispatchAll env ps W).1.objects p).isSome = (deref W.objects p).isSome) ∧
      (∀ p, handlerOf (dispatchAll env ps W).1 p = handlerOf W p) := by
  induction ps with
  | nil => intro W; simp [dispatchAll]
  | cons q ps ih =>
    intro W
    obtain ⟨a1, a2, a3, a4, _⟩ := hc_frame env q W
    cases hf : (HandleCompletion env q W).2 with
    | some f =>
      rw [dispatchAll_cons_fault env q ps W f hf]
      exact ⟨a1, a2, a3, a4, fun p => hc_valid env q p W, fun p => hc_handlerOf env q p W⟩
    | none =>
      rw [dispatchAll_cons_ok env q ps W hf]
      obtain ⟨b1, b2, b3, b4, b5, b6⟩ := ih (HandleCompletion env q W).1
      exact ⟨b1.trans a1, b2.trans a2, b3.trans a3, b4.trans a4,
        fun p => (b5 p).trans (hc_valid env q p W),
        fun p => (b6 p).trans (hc_handlerOf env q p W)⟩

/-- Effect of successive `HandleCompletion` calls whose handlers return. -/
theorem dispatchAll_ok (env : Env) (ps : List Addr) :
    ∀ W : World, (∀ p ∈ ps, (deref W.objects p).isSome = true) →
      (∀ p ∈ ps, env.raises (handlerOf W p) p = false) →
      (dispatchAll env ps W).2 = none ∧
      (dispatchAll env ps W).1.dispatched = W.dispatched ++ ps ∧
      (∀ p, invokedOn (dispatchAll env ps W).1 p =
        invokedOn W p + if p ∈ ps ∧ flagOf W p = false then 1 else 0) ∧
      (∀ p, flagOf (dispatchAll env ps W).1 p = (decide (p ∈ ps) || flagOf W p)) := by
  induction ps with
  | nil => intro W _ _; simp [dispatchAll]
  | cons q ps ih =>
    intro W hv hr
    have hvq := hv q (List.mem_cons_self _ _)
    have hf : (HandleCompletion env q W).2 = none := by
      rw [hc_fault env q W hvq]
      simp [hr q (List.mem_cons_self _ _)]
    rw [dispatchAll_cons_ok env q ps W hf]
    obtain ⟨b1, b2, b3, b4⟩ := ih (HandleCompletion env q W).1
      (fun p hp => by rw [hc_valid]; exact hv p (List.mem_cons_of_mem _ hp))
      (fun p hp => by rw [hc_handlerOf]; exact hr p (List.mem_cons_of_mem _ hp))
    refine ⟨b1, ?_, ?_, ?_⟩
    · rw [b2, hc_dispatched env q W hvq]; simp
    · intro p
      rw [b3 p, hc_flagOf]
      have hi : invokedOn (HandleCompletion env q W).1 p =
          invokedOn W p + if p = q ∧ flagOf W q = false then 1 else 0 := by
        unfold invokedOn
        rw [hc_invoked]
        by_cases hfl : flagOf W q = false
        · by_cases hpq : p = q
          · subst hpq; simp [hfl]
          · have : ¬ q = p := fun h => hpq h.symm
            simp [hfl, hpq, List.count_cons, this]
        · simp [hfl]
      rw [hi]
      by_cases hpq : p = q
      · subst hpq
        by_cases hfl : flagOf W p = false <;> simp [hfl]
      · simp [hpq]
    · intro p
      rw [b4 p, hc_flagOf]
      by_cases hpq : p = q
      · subst hpq; simp
      · simp [hpq]

theorem dispatchAll_append (env : Env) (pre post : List Addr) :
    ∀ W : World, (dispatchAll env pre W).2 = none →
      dispatchAll env (pre ++ post) W = dispatchAll env post (dispatchAll env pre W).1 := by
  induction pre with
  | nil => intro W _; rfl
  | cons q pre ih =>
    intro W h
    cases hf : (HandleCompletion env q W).2 with
    | some f =>
      rw [dispatchAll_cons_fault env q pre W f hf] at h
      simp at h
    | none =>
      rw [dispatchAll_cons_ok env q pre W hf] at h ⊢
      rw [List.cons_append, dispatchAll_cons_ok env q _ W hf]
      exact ih _ h

theorem wfso_result (h : HANDLE) (W : World) :
    ((WaitForSingleObject h W).1 = WAIT_OBJECT_0) ↔ eventSignaled W h = true := by
  unfold WaitForSingleObject eventSignaled
  cases deref W.events h with
  | none => simp [WAIT_FAILED, WAIT_OBJECT_0]
  | some e => cases hs : e.signaled <;> simp [hs, WAIT_TIMEOUT, WAIT_OBJECT_0]

theorem wfso_frame (h : HANDLE) (W : World) :
    (WaitForSingleObject h W).2.objects = W.objects ∧
    (WaitForSingleObject h W).2.blocks = W.blocks ∧
    (WaitForSingleObject h W).2.m_operations = W.m_operations ∧
    (WaitForSingleObject h W).2.m_opsChanged = W.m_opsChanged ∧
    (WaitForSingleObject h W).2.dispatched = W.dispatched ∧
    (WaitForSingleObject h W).2.invoked = W.invoked := by
  unfold WaitForSingleObject
  cases deref W.events h with
  | none => simp
  | some e => cases hs : e.signaled <;> cases hm : e.manualReset <;> simp [hs, hm]

theorem wfso_manual (h : HANDLE) (W : World) (hm : notAutoReset W h = true) :
    (WaitForSingleObject h W).2 = W := by
  unfold WaitForSingleObject
  unfold notAutoReset at hm
  cases he : deref W.events h with
  | none => simp
  | some e =>
    rw [he] at hm
    simp only at hm
    cases hs : e.signaled <;> simp [hs, hm]

theorem wfso_mono (h g : HANDLE) (W : World)
    (hg : eventSignaled (WaitForSingleObject h W).2 g = true) : eventSignaled W g = true := by
  unfold WaitForSingleObject at hg
  cases he : deref W.events h with
  | none => simpa [he] using hg
  | some e =>
    cases hs : e.signaled with
    | false => simpa [he, hs] using hg
    | true =>
      cases hm : e.manualReset with
      | true => simpa [he, hs, hm] using hg
      | false =>
        simp only [he, hs, hm, if_true] at hg
        unfold eventSignaled at hg ⊢
        simp only [Bool.false_eq_true, ↓reduceIte, deref_set _ g h e _ he] at hg
        by_cases hgh : g = h
        · subst hgh; simp at hg
        · simpa [hgh] using hg

theorem slotSignaled_mono (W1 W2 : World) (hs : List (Option HANDLE))
    (h : ∀ g, eventSignaled W1 g = true → eventSignaled W2 g = true) (j : Nat)
    (hj : slotSignaled W1 hs j = true) : slotSignaled W2 hs j = true := by
  unfold slotSignaled at *
  split at hj
  · exact h _ hj
  · simp at hj

theorem eventSignaled_congr (W1 W2 : World) (he : W1.events = W2.events) (g : HANDLE) :
    eventSignaled W1 g = eventSignaled W2 g := by
  unfold eventSignaled; rw [he]

theorem slotSignaled_congr (W1 W2 : World) (he : W1.events = W2.events)
    (hs : List (Option HANDLE)) (j : Nat) : slotSignaled W1 hs j = slotSignaled W2 hs j := by
  unfold slotSignaled eventSignaled; rw [he]

theorem cellOK_congr (W1 W2 : World) (ws : WaitSet)
    (hv : ∀ p, (deref W1.objects p).isSome = (deref W2.objects p).isSome) (j : Nat) :
    cellOK W1 ws j = cellOK W2 ws j := by
  unfold cellOK
  split
  · exact hv _
  · rfl

theorem slotOK_congr (W1 W2 : World) (ws : WaitSet) (he : W1.events = W2.events)
    (hv : ∀ p, (deref W1.objects p).isSome = (deref W2.objects p).isSome) (j : Nat) :
    slotOK W1 ws j = slotOK W2 ws j := by
  unfold slotOK notAutoReset
  rw [cellOK_congr W1 W2 ws hv, he]

theorem cellOK_read (W : World) (ws : WaitSet) (i : Nat) (h : cellOK W ws i = true) :
    ∃ g, ws.handles[i]? = some (some g) ∧ readAt ws.handles i = Except.ok g ∧
      ws.operations[i]? = some (some (ws.opAt i)) ∧
      readAt ws.operations i = Except.ok (ws.opAt i) ∧
      (deref W.objects (ws.opAt i)).isSome = true := by
  unfold cellOK at h
  split at h
  · rename_i g p hg hp
    exact ⟨g, hg, by simp [readAt, hg], by simp [WaitSet.opAt, hp],
      by simp [readAt, WaitSet.opAt, hp], by simpa [WaitSet.opAt, hp] using h⟩
  · simp at h

theorem sweep_zero_index (env : Env) (ws : WaitSet) (n : Nat) (W : World) :
    MonitorThreadFunc.sweep env ws (n + 1) 0 W = MonitorThreadFunc.sweep env ws n 1 W := by
  simp [MonitorThreadFunc.sweep]

theorem sweep_idle (env : Env) (ws : WaitSet) (n i : Nat) (W : World) (g : HANDLE)
    (hi : 0 < i) (hg : readAt ws.handles i = Except.ok g)
    (hs : eventSignaled W g = false) :
    MonitorThreadFunc.sweep env ws (n + 1) i W =
      MonitorThreadFunc.sweep env ws n (i + 1) (WaitForSingleObject g W).2 := by
  have : ¬ (WaitForSingleObject g W).1 = WAIT_OBJECT_0 := by
    rw [wfso_result]; simp [hs]
  simp [MonitorThreadFunc.sweep, hi, hg, this]

theorem sweep_hit (env : Env) (ws : WaitSet) (n i : Nat) (W : World) (g : HANDLE) (p : Addr)
    (hi : 0 < i) (hg : readAt ws.handles i = Except.ok g)
    (hs : eventSignaled W g = true) (hp : readAt ws.operations i = Except.ok p) :
    MonitorThreadFunc.sweep env ws (n + 1) i W =
      match HandleCompletion env p (WaitForSingleObject g W).2 with
      | (W2, some f) => (W2, some f)
      | (W2, none) => MonitorThreadFunc.sweep env ws n (i + 1) W2 := by
  have : (WaitForSingleObject g W).1 = WAIT_OBJECT_0 := (wfso_result g W).mpr hs
  simp [MonitorThreadFunc.sweep, hi, hg, this, hp]

theorem slotOK_parts (W : World) (ws : WaitSet) (i : Nat) (h : slotOK W ws i = true) :
    ∃ g, ws.handles[i]? = some (some g) ∧ readAt ws.handles i = Except.ok g ∧
      readAt ws.operations i = Except.ok (ws.opAt i) ∧
      (deref W.objects (ws.opAt i)).isSome = true ∧
      (WaitForSingleObject g W).2 = W ∧
      slotSignaled W ws.handles i = eventSignaled W g := by
  unfold slotOK at h
  rw [Bool.and_eq_true] at h
  obtain ⟨g, h1, h2, _, h4, h5⟩ := cellOK_read W ws i h.1
  have h6 := h.2
  rw [h1] at h6
  exact ⟨g, h1, h2, h4, h5, wfso_manual g W h6, by simp [slotSignaled, h1]⟩

/-- On well-formed cells the sweep is the succession of `HandleCompletion`
calls on the operations of the signaled cells, in increasing order. -/
theorem sweep_eq_dispatchAll (env : Env) (ws : WaitSet) :
    ∀ (n i : Nat) (W : World),
      (∀ j, i ≤ j → j < i + n → 0 < j → slotOK W ws j = true) →
      MonitorThreadFunc.sweep env ws n i W =
        dispatchAll env
          (((List.range' i n).filter
            (fun j => decide (0 < j) && slotSignaled W ws.handles j)).map ws.opAt) W := by
  intro n
  induction n with
  | zero => intro i W _; simp [MonitorThreadFunc.sweep, dispatchAll]
  | succ n ih =>
    intro i W hok
    rw [List.range'_succ]
    by_cases hi : 0 < i
    · obtain ⟨g, _, h2, h3, h4, h5, h6⟩ := slotOK_parts W ws i (hok i (le_refl _) (by omega) hi)
      cases hs : eventSignaled W g with
      | false =>
        rw [sweep_idle env ws n i W g hi h2 hs, h5, List.filter_cons]
        simp only [h6, hs, Bool.and_false, Bool.false_eq_true, if_false]
        exact ih (i + 1) W (fun j hj1 hj2 hj3 => hok j (by omega) (by omega) hj3)
      | true =>
        rw [sweep_hit env ws n i W g _ hi h2 hs h3, h5, List.filter_cons]
        simp only [h6, hs, hi, decide_True, Bool.and_self, if_true, List.map_cons]
        cases hf : (HandleCompletion env (ws.opAt i) W).2 with
        | some f =>
          rw [dispatchAll_cons_fault env _ _ W f hf]
          cases hr : HandleCompletion env (ws.opAt i) W with
          | mk W2 f2 => rw [hr] at hf; simp at hf; subst hf; rfl
        | none =>
          rw [dispatchAll_cons_ok env _ _ W hf]
          have he := (hc_frame env (ws.opAt i) W).1
          have key := ih (i + 1) (HandleCompletion env (ws.opAt i) W).1
            (fun j hj1 hj2 hj3 => by
              rw [slotOK_congr _ W ws he (fun p => hc_valid env _ p W)]
              exact hok j (by omega) (by omega) hj3)
          simp only [slotSignaled_congr _ W he] at key
          rw [← key]
          cases hr : HandleCompletion env (ws.opAt i) W with
          | mk W2 f2 => rw [hr] at hf; simp at hf; subst hf; rfl
    · have hi0 : i = 0 := by omega
      subst hi0
      rw [sweep_zero_index, List.filter_cons]
      simp only [lt_self_iff_false, decide_False, Bool.false_and, Bool.false_eq_true, if_false]
      exact ih 1 W (fun j hj1 hj2 hj3 => hok j (by omega) (by omega) hj3)

theorem WaitSetOK_slot (ws : WaitSet) (W : World) (hok : WaitSetOK ws W) (j : Nat)
    (h1 : 0 < j) (h2 : j < ws.handleCount) : slotOK W ws j = true :=
  hok j (List.mem_range'_1.mpr ⟨h1, by omega⟩)

theorem wake_out_of_range (env : Env) (ws : WaitSet) (result : DWORD) (W : World)
    (h : ¬ result < WAIT_OBJECT_0 + ws.handleCount) :
    MonitorThreadFunc.wake env ws result W = (Control.waiting ws, W) := by
  simp [MonitorThreadFunc.wake, h]

/-- An in-range wake on a well-formed wait-set, as a succession of
`HandleCompletion` calls. -/
theorem wake_eq_dispatchAll (env : Env) (ws : WaitSet) (W : World) (k : Nat)
    (hok : WaitSetOK ws W) (hk : k < ws.handleCount) :
    MonitorThreadFunc.wake env ws (WAIT_OBJECT_0 + k) W =
      match dispatchAll env ((dueSlots W ws k).map ws.opAt) W with
      | (W1, some f) => (Control.crashed f, W1)
      | (W1, none) => (Control.rebuild, W1) := by
  have hs := sweep_eq_dispatchAll env ws (ws.handleCount - k) k W
    (fun j _ hj2 hj3 => WaitSetOK_slot ws W hok j hj3 (by omega))
  simp only [MonitorThreadFunc.wake, WAIT_OBJECT_0, Nat.zero_add, Nat.zero_le, hk, true_and,
    if_true, Nat.sub_zero, hs, dueSlots]

theorem mem_dueSlots (W : World) (ws : WaitSet) (k j : Nat) :
    j ∈ dueSlots W ws k ↔
      (k ≤ j ∧ j < ws.handleCount) ∧ 0 < j ∧ slotSignaled W ws.handles j = true := by
  unfold dueSlots
  rw [List.mem_filter, List.mem_range'_1]
  simp only [Bool.and_eq_true, decide_eq_true_eq]
  constructor
  · rintro ⟨⟨h1, h2⟩, h3, h4⟩; exact ⟨⟨h1, by omega⟩, h3, h4⟩
  · rintro ⟨⟨h1, h2⟩, h3, h4⟩; exact ⟨⟨h1, by omega⟩, h3, h4⟩

theorem dueOps_valid (W : World) (ws : WaitSet) (k : Nat) (hok : WaitSetOK ws W) :
    ∀ p ∈ (dueSlots W ws k).map ws.opAt, (deref W.objects p).isSome = true := by
  intro p hp
  obtain ⟨j, hj, rfl⟩ := List.mem_map.mp hp
  obtain ⟨⟨_, h2⟩, h3, _⟩ := (mem_dueSlots W ws k j).mp hj
  obtain ⟨g, _, _, _, h5, _⟩ := slotOK_parts W ws j (WaitSetOK_slot ws W hok j h3 h2)
  exact h5

theorem readAt_ok {α : Type} (arr : List (Option α)) (i : Nat) (v : α)
    (h : readAt arr i = Except.ok v) : arr[i]? = some (some v) := by
  unfold readAt at h
  split at h
  · simp at h
  · simp at h
  · rename_i w hw
    have hvw : w = v := by simpa using h
    rw [hw, hvw]

theorem sweep_read_fail (env : Env) (ws : WaitSet) (n i : Nat) (W : World) (f : Fault)
    (hi : 0 < i) (hg : readAt ws.handles i = Except.error f) :
    MonitorThreadFunc.sweep env ws (n + 1) i W = (W, some f) := by
  simp [MonitorThreadFunc.sweep, hi, hg]

theorem sweep_op_fail (env : Env) (ws : WaitSet) (n i : Nat) (W : World) (g : HANDLE)
    (f : Fault) (hi : 0 < i) (hg : readAt ws.handles i = Except.ok g)
    (hs : eventSignaled W g = true) (hp : readAt ws.operations i = Except.error f) :
    MonitorThreadFunc.sweep env ws (n + 1) i W = ((WaitForSingleObject g W).2, some f) := by
  have : (WaitForSingleObject g W).1 = WAIT_OBJECT_0 := (wfso_result g W).mpr hs
  simp [MonitorThreadFunc.sweep, hi, hg, this, hp]

theorem sweep_hit_fault (env : Env) (ws : WaitSet) (n i : Nat) (W : World) (g : HANDLE)
    (p : Addr) (f : Fault)
    (hi : 0 < i) (hg : readAt ws.handles i = Except.ok g)
    (hs : eventSignaled W g = true) (hp : readAt ws.operations i = Except.ok p)
    (hf : (HandleCompletion env p (WaitForSingleObject g W).2).2 = some f) :
    MonitorThreadFunc.sweep env ws (n + 1) i W =
      ((HandleCompletion env p (WaitForSingleObject g W).2).1, some f) := by
  rw [sweep_hit env ws n i W g p hi hg hs hp]
  cases hr : HandleCompletion env p (WaitForSingleObject g W).2 with
  | mk W2 f2 => rw [hr] at hf; simp at hf; subst hf; rfl

theorem sweep_hit_ok (env : Env) (ws : WaitSet) (n i : Nat) (W : World) (g : HANDLE)
    (p : Addr)
    (hi : 0 < i) (hg : readAt ws.handles i = Except.ok g)
    (hs : eventSignaled W g = true) (hp : readAt ws.operations i = Except.ok p)
    (hf : (HandleCompletion env p (WaitForSingleObject g W).2).2 = none) :
    MonitorThreadFunc.sweep env ws (n + 1) i W =
      MonitorThreadFunc.sweep env ws n (i + 1)
        (HandleCompletion env p (WaitForSingleObject g W).2).1 := by
  rw [sweep_hit env ws n i W g p hi hg hs hp]
  cases hr : HandleCompletion env p (WaitForSingleObject g W).2 with
  | mk W2 f2 => rw [hr] at hf; simp at hf; subst hf; rfl

/-- Whatever the wait-set, the sweep only calls `HandleCompletion` on the
operation of a cell whose signal was signaled, and on well-formed cells it has
no memory fault. -/
theorem sweep_sound (env : Env) (ws : WaitSet) (W0 : World) :
    ∀ (n i : Nat) (W : World),
      (∀ g, eventSignaled W g = true → eventSignaled W0 g = true) →
      ∃ L : List Addr,
        (MonitorThreadFunc.sweep env ws n i W).1.dispatched = W.dispatched ++ L ∧
        (∀ p ∈ L, ∃ j, i ≤ j ∧ j < i + n ∧ 0 < j ∧ ws.operations[j]? = some (some p) ∧
          slotSignaled W0 ws.handles j = true ∧ (deref W.objects p).isSome = true) ∧
        ((∀ j, i ≤ j → j < i + n → 0 < j → cellOK W ws j = true) →
          Benign (MonitorThreadFunc.sweep env ws n i W).2) := by
  intro n
  induction n with
  | zero =>
    intro i W _
    exact ⟨[], by simp [MonitorThreadFunc.sweep], by simp,
      fun _ => Or.inl (by simp [MonitorThreadFunc.sweep])⟩
  | succ n ih =>
    intro i W hmono
    by_cases hi : 0 < i
    · cases hg : readAt ws.handles i with
      | error f =>
        rw [sweep_read_fail env ws n i W f hi hg]
        refine ⟨[], by simp, by simp, ?_⟩
        intro hc
        obtain ⟨g, _, h2, _⟩ := cellOK_read W ws i (hc i (le_refl _) (by omega) hi)
        rw [h2] at hg; simp at hg
      | ok g =>
        have hgc := readAt_ok _ _ _ hg
        obtain ⟨w1, w2, w3, w4, w5, w6⟩ := wfso_frame g W
        cases hs : eventSignaled W g with
        | false =>
          rw [sweep_idle env ws n i W g hi hg hs]
          obtain ⟨L, h1, h2, h3⟩ := ih (i + 1) (WaitForSingleObject g W).2
            (fun g2 hg2 => hmono g2 (wfso_mono g g2 W hg2))
          refine ⟨L, by rw [h1, w5], ?_, ?_⟩
          · intro p hp
            obtain ⟨j, a1, a2, a3, a4, a5, a6⟩ := h2 p hp
            exact ⟨j, by omega, by omega, a3, a4, a5, by rw [← w1]; exact a6⟩
          · intro hc
            apply h3
            intro j b1 b2 b3
            rw [cellOK_congr _ W ws (fun p => by rw [w1])]
            exact hc j (by omega) (by omega) b3
        | true =>
          cases hp : readAt ws.operations i with
          | error f =>
            rw [sweep_op_fail env ws n i W g f hi hg hs hp]
            refine ⟨[], by simp [w5], by simp, ?_⟩
            intro hc
            obtain ⟨_, _, _, _, h4, _⟩ := cellOK_read W ws i (hc i (le_refl _) (by omega) hi)
            rw [h4] at hp; simp at hp
          | ok p =>
            have hpc := readAt_ok _ _ _ hp
            have hsig0 : slotSignaled W0 ws.handles i = true := by
              simp only [slotSignaled, hgc]; exact hmono g hs
            rcases hc_dispatched_any env p (WaitForSingleObject g W).2 with ⟨hd, hv⟩ | hbad
            · have hvW : (deref W.objects p).isSome = true := by rw [← w1]; exact hv
              cases hf : (HandleCompletion env p (WaitForSingleObject g W).2).2 with
              | some f =>
                rw [sweep_hit_fault env ws n i W g p f hi hg hs hp hf]
                refine ⟨[p], by rw [hd, w5], ?_, ?_⟩
                · intro q hq
                  have : q = p := by simpa using hq
                  subst this
                  exact ⟨i, le_refl _, by omega, hi, hpc, hsig0, hvW⟩
                · intro _
                  right
                  rw [hc_fault env p _ hv] at hf
                  split at hf
                  · exact ⟨_, _, congrArg some (Option.some.inj hf).symm⟩
                  · simp at hf
              | none =>
                rw [sweep_hit_ok env ws n i W g p hi hg hs hp hf]
                have he := (hc_frame env p (WaitForSingleObject g W).2).1
                obtain ⟨L, h1, h2, h3⟩ := ih (i + 1)
                  (HandleCompletion env p (WaitForSingleObject g W).2).1
                  (fun g2 hg2 => hmono g2 (wfso_mono g g2 W (by
                    rw [← eventSignaled_congr _ _ he]; exact hg2)))
                have hval : ∀ q,
                    (deref (HandleCompletion env p (WaitForSingleObject g W).2).1.objects q).isSome
                      = (deref W.objects q).isSome := by
                  intro q; rw [hc_valid, w1]
                refine ⟨p :: L, by rw [h1, hd, w5]; simp, ?_, ?_⟩
                · intro q hq
                  rcases List.mem_cons.mp hq with rfl | hq
                  · exact ⟨i, le_refl _, by omega, hi, hpc, hsig0, hvW⟩
                  · obtain ⟨j, a1, a2, a3, a4, a5, a6⟩ := h2 q hq
                    exact ⟨j, by omega, by omega, a3, a4, a5, by rw [← hval]; exact a6⟩
                · intro hc
                  apply h3
                  intro j b1 b2 b3
                  rw [cellOK_congr _ W ws hval]
                  exact hc j (by omega) (by omega) b3
            · have hf : (HandleCompletion env p (WaitForSingleObject g W).2).2
                  = some Fault.badPointer := by rw [hbad]
              rw [sweep_hit_fault env ws n i W g p _ hi hg hs hp hf, hbad]
              refine ⟨[], by simp [w5], by simp, ?_⟩
              intro hc
              obtain ⟨_, _, _, h3, _, h5⟩ := cellOK_read W ws i (hc i (le_refl _) (by omega) hi)
              rw [hpc] at h3
              have hpe : p = ws.opAt i := by simpa using h3
              rw [← hpe, ← w1] at h5
              rw [hc_fault env p _ h5] at hf
              split at hf <;> simp at hf
    · have hi0 : i = 0 := by omega
      subst hi0
      rw [sweep_zero_index]
      obtain ⟨L, h1, h2, h3⟩ := ih 1 W hmono
      refine ⟨L, h1, ?_, ?_⟩
      · intro p hp
        obtain ⟨j, a1, a2, a3, a4, a5, a6⟩ := h2 p hp
        exact ⟨j, by omega, by omega, a3, a4, a5, a6⟩
      · intro hc
        apply h3
        intro j b1 b2 b3
        exact hc j (by omega) (by omega) b3

theorem dueSlots_split (W : World) (ws : WaitSet) (k j : Nat)
    (hkj : k ≤ j) (hj1 : 0 < j) (hj : j < ws.handleCount)
    (hs : slotSignaled W ws.handles j = true) :
    dueSlots W ws k =
      (List.range' k (j - k)).filter (fun i => decide (0 < i) && slotSignaled W ws.handles i)
        ++ j :: dueSlots W ws (j + 1) := by
  unfold dueSlots
  have e1 : List.range' k (ws.handleCount - k) =
      List.range' k (j - k) ++ List.range' j (ws.handleCount - j) := by
    have := List.range'_append_1 k (j - k) (ws.handleCount - j)
    rw [show k + (j - k) = j by omega,
      show ws.handleCount - j + (j - k) = ws.handleCount - k by omega] at this
    exact this.symm
  have e2 : List.range' j (ws.handleCount - j) =
      j :: List.range' (j + 1) (ws.handleCount - (j + 1)) := by
    rw [show ws.handleCount - j = (ws.handleCount - (j + 1)) + 1 by omega, List.range'_succ]
  rw [e1, e2, List.filter_append, List.filter_cons]
  simp [hj1, hs]

theorem newCalls_append (W W1 : World) (L : List Addr)
    (h : W1.dispatched = W.dispatched ++ L) : newCalls W W1 = L := by
  simp [newCalls, h]

theorem wake_sound (env : Env) (ws : WaitSet) (result : DWORD) (W : World) :
    ∀ p ∈ newCalls W (MonitorThreadFunc.wake env ws result W).2,
      ∃ j, 0 < j ∧ result - WAIT_OBJECT_0 ≤ j ∧ j < ws.handleCount ∧
        ws.operations[j]? = some (some p) ∧
        slotSignaled W ws.handles j = true ∧ (deref W.objects p).isSome = true := by
  intro p hp
  unfold MonitorThreadFunc.wake at hp
  split at hp
  · rename_i hr
    obtain ⟨L, h1, h2, _⟩ := sweep_sound env ws W
      (ws.handleCount - (result - WAIT_OBJECT_0)) (result - WAIT_OBJECT_0) W (fun _ h => h)
    have hL : newCalls W (MonitorThreadFunc.sweep env ws
        (ws.handleCount - (result - WAIT_OBJECT_0)) (result - WAIT_OBJECT_0) W).1 = L :=
      newCalls_append _ _ _ h1
    have hp2 : p ∈ L := by
      rw [← hL]
      cases hsw : MonitorThreadFunc.sweep env ws
          (ws.handleCount - (result - WAIT_OBJECT_0)) (result - WAIT_OBJECT_0) W with
      | mk W1 f =>
        rw [hsw] at hp
        cases f <;> exact hp
    obtain ⟨j, a1, a2, a3, a4, a5, a6⟩ := h2 p hp2
    simp only [WAIT_OBJECT_0] at hr a1 a2 ⊢
    have hr3 : @LT.lt Nat _ result (0 + ws.handleCount) := hr.2
    have hjlt : j < ws.handleCount := by omega
    exact ⟨j, a3, a1, hjlt, a4, a5, a6⟩
  · simp [newCalls] at hp

/-- What the wait-set construction returns. -/
theorem build_spec (env : Env) (W : World) (hreg : RegistryValid W) :
    ∃ ws, MonitorThreadFunc.build env W = Except.ok ws ∧
      ws.handleCount = 1 + (pendingOps env W).length ∧
      ws.maxHandleCount = 1 + W.m_operations.length ∧
      ws.handles.length = 1 + W.m_operations.length ∧
      ws.operations.length = 1 + W.m_operations.length ∧
      ws.handles.take ws.handleCount =
        some W.m_opsChanged :: (pendingOps env W).map (fun p => some (hEventOf W p)) ∧
      ws.operations.take ws.handleCount = some 0 :: (pendingOps env W).map some := by
  have hrep : ∀ (α : Type) (n : Nat) (v : α),
      (List.replicate (1 + n) (none : Option α)).set 0 (some v) =
        some v :: List.replicate n none := by
    intro α n v
    rw [Nat.add_comm, List.replicate_succ, List.set_cons_zero]
  obtain ⟨ws, h1, h2, h3, h4, h5, h6, h7⟩ := fill_spec env W W.m_operations
    { handles := some W.m_opsChanged :: List.replicate W.m_operations.length none,
      operations := some 0 :: List.replicate W.m_operations.length none,
      maxHandleCount := 1 + W.m_operations.length, handleCount := 1 }
    hreg (by simp) (by simp; omega)
  refine ⟨ws, ?_, h2, h5, ?_, ?_, ?_, ?_⟩
  · simp only [MonitorThreadFunc.build, writeAt, sspy_malloc, List.length_replicate,
      show 0 < 1 + W.m_operations.length by omega, if_true, hrep]
    exact h1
  · rw [h3]; simp; omega
  · rw [h4]; simp; omega
  · simpa using h6
  · simpa using h7

theorem pendingOps_mem (env : Env) (W : World) (p : Addr) (hp : p ∈ pendingOps env W) :
    p ∈ W.m_operations ∧ completedAt env W p = false := by
  unfold pendingOps at hp
  rw [List.mem_filter] at hp
  exact ⟨hp.1, by simpa using hp.2⟩

theorem getElem?_of_take_eq_cons {α : Type} (l : List α) (n : Nat) (a : α) (t : List α)
    (h : l.take n = a :: t) (i : Nat) (hi1 : 1 ≤ i) (hi : i < n) : l[i]? = t[i - 1]? := by
  rw [← List.getElem?_take_of_lt hi, h]
  obtain ⟨m, rfl⟩ : ∃ m, i = m + 1 := ⟨i - 1, by omega⟩
  simp

theorem build_slots (env : Env) (W : World) (ws : WaitSet)
    (hc : ws.handleCount = 1 + (pendingOps env W).length)
    (hh : ws.handles.take ws.handleCount =
        some W.m_opsChanged :: (pendingOps env W).map (fun p => some (hEventOf W p)))
    (ho : ws.operations.take ws.handleCount = some 0 :: (pendingOps env W).map some)
    (i : Nat) (hi1 : 1 ≤ i) (hi : i < ws.handleCount) :
    ∃ p, (pendingOps env W)[i - 1]? = some p ∧ p ∈ pendingOps env W ∧
      ws.operations[i]? = some (some p) ∧
      ws.handles[i]? = some (some (hEventOf W p)) := by
  have hlt : i - 1 < (pendingOps env W).length := by omega
  refine ⟨(pendingOps env W)[i - 1], List.getElem?_eq_getElem hlt,
    List.getElem_mem _, ?_, ?_⟩
  · rw [getElem?_of_take_eq_cons _ _ _ _ ho i hi1 hi]
    simp [List.getElem?_eq_getElem hlt]
  · rw [getElem?_of_take_eq_cons _ _ _ _ hh i hi1 hi]
    simp [List.getElem?_eq_getElem hlt]

theorem opValid_isSome (W : World) (p : Addr) (h : opValid W p = true) :
    (deref W.objects p).isSome = true := by
  unfold opValid at h
  split at h
  · rename_i o ho; simp [ho]
  · simp at h

theorem wake_world (env : Env) (ws : WaitSet) (W : World) (k : Nat)
    (hok : WaitSetOK ws W) (hk : k < ws.handleCount) :
    (MonitorThreadFunc.wake env ws (WAIT_OBJECT_0 + k) W).2 =
      (dispatchAll env ((dueSlots W ws k).map ws.opAt) W).1 := by
  rw [wake_eq_dispatchAll env ws W k hok hk]
  cases hr : dispatchAll env ((dueSlots W ws k).map ws.opAt) W with
  | mk W1 f => cases f <;> rfl

theorem dispatchAll_single (env : Env) (p : Addr) (W : World) :
    (dispatchAll env [p] W).1 = (HandleCompletion env p W).1 := by
  cases hf : (HandleCompletion env p W).2 with
  | some f => rw [dispatchAll_cons_fault env p [] W f hf]
  | none => rw [dispatchAll_cons_ok env p [] W hf]; rfl

theorem wfmo_ceiling (nCount : Nat) (lpHandles : List (Option HANDLE)) (W : World)
    (h : MAXIMUM_WAIT_OBJECTS < nCount) :
    WaitForMultipleObjects nCount lpHandles W = some (WAIT_FAILED, W) := by
  simp [WaitForMultipleObjects, h]

/-- With more handles than a single wait accepts, a step of the monitor
changes nothing. -/
theorem step_ceiling (env : Env) (ws : WaitSet) (W : World)
    (hmax : MAXIMUM_WAIT_OBJECTS < ws.handleCount) (hint : ws.handleCount < 2 ^ 31) :
    MonitorThreadFunc.step env (Control.waiting ws, W) = some (Control.waiting ws, W) := by
  have hnr : ¬ WAIT_FAILED < WAIT_OBJECT_0 + ws.handleCount := by
    simp only [WAIT_FAILED, WAIT_OBJECT_0]
    have : @LT.lt Nat _ ws.handleCount (2 ^ 31) := hint
    show ¬ @LT.lt Nat _ 4294967295 (0 + ws.handleCount)
    omega
  simp only [MonitorThreadFunc.step, wfmo_ceiling _ ws.handles W hmax,
    wake_out_of_range env ws WAIT_FAILED W hnr]

theorem run_ceiling (env : Env) (ws : WaitSet) (W : World)
    (hmax : MAXIMUM_WAIT_OBJECTS < ws.handleCount) (hint : ws.handleCount < 2 ^ 31) (n : Nat) :
    MonitorThreadFunc.run env n (Control.waiting ws, W) = (Control.waiting ws, W) := by
  induction n with
  | zero => rfl
  | succ n ih => simp only [MonitorThreadFunc.run, step_ceiling env ws W hmax hint, ih]

theorem opSound_valid (W : World) (p : Addr) (h : opSound W p = true) :
    opValid W p = true := by
  unfold opSound at h
  unfold opValid
  cases ho : deref W.objects p with
  | none => simp [ho] at h
  | some o =>
    simp only [ho] at h ⊢
    cases hb : deref W.blocks o.GetRealOverlapped with
    | none => simp [hb] at h
    | some ov => rfl

theorem RegistrySound.valid (W : World) (h : RegistrySound W) : RegistryValid W :=
  fun p hp => opSound_valid W p (h p hp)

theorem opSound_hEvent (W : World) (p : Addr) (h : opSound W p = true) :
    notAutoReset W (hEventOf W p) = true := by
  unfold opSound at h
  unfold hEventOf
  cases ho : deref W.objects p with
  | none => simp [ho] at h
  | some o =>
    simp only [ho] at h ⊢
    cases hb : deref W.blocks o.GetRealOverlapped with
    | none => simp [hb] at h
    | some ov => simpa [hb] using h

/-- The wait-set built in a state whose registry is sound is well formed. -/
theorem build_WaitSetOK (env : Env) (W : World) (ws : WaitSet) (hreg : RegistrySound W)
    (hb : MonitorThreadFunc.build env W = Except.ok ws) : WaitSetOK ws W := by
  obtain ⟨ws1, h1, h2, _, _, _, h6, h7⟩ := build_spec env W hreg.valid
  rw [hb] at h1
  have : ws = ws1 := by simpa using h1
  subst this
  intro i hi
  rw [List.mem_range'_1] at hi
  obtain ⟨q, _, hq, hq2, hq3⟩ := build_slots env W ws h2 h6 h7 i hi.1 (by omega)
  have hs := hreg q (pendingOps_mem env W q hq).1
  have hv := opValid_isSome W q (opSound_valid W q hs)
  simp [slotOK, cellOK, hq2, hq3, hv, opSound_hEvent W q hs]

theorem notAutoReset_SetEvent (h g : HANDLE) (W : World) :
    notAutoReset (SetEvent h W) g = notAutoReset W g := by
  unfold notAutoReset
  by_cases hgh : g = h
  · subst hgh
    cases he : deref W.events g with
    | none => simp [SetEvent, he]
    | some e => rw [SetEvent_self g W e he]
  · rw [SetEvent_other h g W hgh]

/-- Setting a signal keeps a wait-set well formed. -/
theorem WaitSetOK_SetEvent (ws : WaitSet) (W : World) (h : HANDLE) (hok : WaitSetOK ws W) :
    WaitSetOK ws (SetEvent h W) := by
  intro i hi
  have := hok i hi
  unfold slotOK at this ⊢
  rw [cellOK_congr (SetEvent h W) W ws (fun p => by rw [(SetEvent_fields h W).2.1])]
  simpa only [notAutoReset_SetEvent] using this

theorem RegistrySound_initial : RegistrySound (Init World.initial) := by decide

/-- `TrackOperation` keeps the registry sound. -/
theorem RegistrySound_TrackOperation (overlapped data : Addr) (handler : Nat) (W : World)
    (hreg : RegistrySound W) :
    RegistrySound (TrackOperation overlapped data handler W).2 := by
  rw [TrackOperation_eq]
  set W2 : World := { W with
            events := W.events ++ [⟨true, false⟩]
            blocks := W.blocks ++ [⟨0, 0, 0, 0, W.events.length + 1⟩]
            objects := W.objects ++
              [⟨overlapped, data, false, handler, W.blocks.length + 1⟩]
            m_operations := W.m_operations ++ [W.objects.length + 1] } with hW2
  obtain ⟨h1, h2, _, h4, _, _⟩ := SetEvent_fields W.m_opsChanged W2
  have hnar : ∀ g, notAutoReset W g = true → notAutoReset W2 g = true := by
    intro g hg
    unfold notAutoReset at hg ⊢
    by_cases hv : (deref W.events g).isSome = true
    · have : deref W2.events g = deref W.events g := deref_append_old _ _ _ hv
      rw [this]; exact hg
    · cases hd : deref W2.events g with
      | none => rfl
      | some e =>
        have hb := (deref_isSome_iff W2.events g).mp (by simp [hd])
        have hnb : ¬ (0 < g ∧ g ≤ W.events.length) := fun hh =>
          hv ((deref_isSome_iff _ _).mpr hh)
        have hlen : W2.events.length = W.events.length + 1 := by simp [hW2]
        have hgt : W.events.length < g := by
          by_contra hc
          exact hnb ⟨hb.1, Nat.le_of_not_lt hc⟩
        have hg2 : @Eq Nat g (W.events.length + 1) := by omega
        have : deref W2.events g = some ⟨true, false⟩ := by
          rw [hg2]; exact deref_append_new _ _
        rw [this] at hd
        have : e = ⟨true, false⟩ := by simpa using hd.symm
        subst this; rfl
  intro p hp
  rw [h4] at hp
  unfold opSound
  rw [h2, h1]
  simp only [notAutoReset_SetEvent]
  rcases List.mem_append.mp hp with hp | hp
  · have hs := hreg p hp
    have hv := opValid_isSome W p (opSound_valid W p hs)
    unfold opSound at hs
    have e1 : deref W2.objects p = deref W.objects p := deref_append_old _ _ _ hv
    rw [e1]
    cases ho : deref W.objects p with
    | none => simp [ho] at hs
    | some o =>
      simp only [ho] at hs ⊢
      cases hb : deref W.blocks o.GetRealOverlapped with
      | none => simp [hb] at hs
      | some ov =>
        have e2 : deref W2.blocks o.GetRealOverlapped = some ov := by
          rw [← hb]; exact deref_append_old _ _ _ (by simp [hb])
        simp only [hb] at hs
        simp only [e2]
        exact hnar _ hs
  · have hpe : p = W.objects.length + 1 := by simpa using hp
    subst hpe
    have e1 : deref W2.objects (W.objects.length + 1) =
        some ⟨overlapped, data, false, handler, W.blocks.length + 1⟩ := deref_append_new _ _
    have e2 : deref W2.blocks (W.blocks.length + 1) =
        some ⟨0, 0, 0, 0, W.events.length + 1⟩ := deref_append_new _ _
    have e3 : deref W2.events (W.events.length + 1) = some ⟨true, false⟩ :=
      deref_append_new _ _
    simp [e1, GetRealOverlapped, e2, notAutoReset, e3]

theorem hc_opSound (env : Env) (q p : Addr) (W : World) :
    opSound (HandleCompletion env q W).1 p = opSound W p := by
  cases ho : deref W.objects q with
  | none => rw [HandleCompletion_bad env q W ho]
  | some o =>
    cases hf : o.m_completionHandled with
    | true => rw [HandleCompletion_done env q W o ho hf]; rfl
    | false =>
      rw [HandleCompletion_fresh env q W o ho hf]
      simp only [opSound, notAutoReset, deref_set _ p q o _ ho]
      by_cases hpq : p = q
      · subst hpq; simp [ho, GetRealOverlapped]
      · simp [hpq]

/-- `HandleCompletion` keeps the registry sound. -/
theorem RegistrySound_HandleCompletion (env : Env) (q : Addr) (W : World)
    (hreg : RegistrySound W) : RegistrySound (HandleCompletion env q W).1 := by
  intro p hp
  rw [(hc_frame env q W).2.2.1] at hp
  rw [hc_opSound]
  exact hreg p hp

theorem RegistrySound_dispatchAll (env : Env) (ps : List Addr) :
    ∀ W : World, RegistrySound W → RegistrySound (dispatchAll env ps W).1 := by
  induction ps with
  | nil => intro W h; exact h
  | cons q ps ih =>
    intro W h
    cases hf : (HandleCompletion env q W).2 with
    | some f =>
      rw [dispatchAll_cons_fault env q ps W f hf]
      exact RegistrySound_HandleCompletion env q W h
    | none =>
      rw [dispatchAll_cons_ok env q ps W hf]
      exact ih _ (RegistrySound_HandleCompletion env q W h)

/-- A wake on a well-formed wait-set keeps the registry sound. -/
theorem RegistrySound_wake (env : Env) (ws : WaitSet) (W : World) (k : Nat)
    (hok : WaitSetOK ws W) (hk : k < ws.handleCount) (hreg : RegistrySound W) :
    RegistrySound (MonitorThreadFunc.wake env ws (WAIT_OBJECT_0 + k) W).2 := by
  rw [wake_world env ws W k hok hk]
  exact RegistrySound_dispatchAll env _ W hreg

/-- Setting a signal keeps the registry sound. -/
theorem RegistrySound_SetEvent (h : HANDLE) (W : World) (hreg : RegistrySound W) :
    RegistrySound (SetEvent h W) := by
  obtain ⟨h1, h2, _, h4, _, _⟩ := SetEvent_fields h W
  intro p hp
  rw [h4] at hp
  have := hreg p hp
  unfold opSound at this ⊢
  rw [h2, h1]
  simpa only [notAutoReset_SetEvent] using this

/-- `TrackOperation` keeps the registry free of repeated entries. -/
theorem Nodup_TrackOperation (overlapped data : Addr) (handler : Nat) (W : World)
    (hreg : RegistryValid W) (hnd : W.m_operations.Nodup) :
    (TrackOperation overlapped data handler W).2.m_operations.Nodup := by
  rw [TrackOperation_eq, (SetEvent_fields _ _).2.2.2.1]
  show (W.m_operations ++ [W.objects.length + 1]).Nodup
  rw [List.nodup_append]
  refine ⟨hnd, List.nodup_singleton _, ?_⟩
  intro a ha hb
  have hab : @Eq Nat a (W.objects.length + 1) := by simpa using hb
  have hv := (deref_isSome_iff _ _).mp (opValid_isSome W a (hreg a ha))
  omega

set_option maxRecDepth 100000

/-- C1: on an operation that has not been dispatched, any number `n ≥ 1` of
successive calls of `HandleCompletion` invokes the completion callback exactly
once in total, with that operation as argument: the first call sets the
dispatched flag and records the invocation, and after it a further call
returns normally and leaves the operation objects, the record of invocations
and every other part of the state as they are (only the history of calls
grows). -/
theorem HandleCompletion_invokes_callback_once (env : Env) (W : World) (p : Addr) (o : COverlappedOperation)
    (hp : deref W.objects p = some o) (hf : o.m_completionHandled = false)
    (n : Nat) (hn : 1 ≤ n) :
    (HandleCompletionTimes env p n W).invoked = W.invoked ++ [(o.m_handler, p)] ∧
    (HandleCompletionTimes env p n W).objects =
      W.objects.set (p - 1) { o with m_completionHandled := true } ∧
    (HandleCompletionTimes env p n W).events = W.events ∧
    (HandleCompletionTimes env p n W).blocks = W.blocks ∧
    (HandleCompletionTimes env p n W).m_operations = W.m_operations ∧
    (HandleCompletionTimes env p n W).m_opsChanged = W.m_opsChanged ∧
    HandleCompletion env p (HandleCompletionTimes env p n W) =
      ({ (HandleCompletionTimes env p n W) with
          dispatched := (HandleCompletionTimes env p n W).dispatched ++ [p] }, none) := by
  obtain ⟨m, rfl⟩ : ∃ m, n = m + 1 := ⟨n - 1, by omega⟩
  simp only [HandleCompletionTimes, HandleCompletion_fresh env p W o hp hf]
  set W1 : World := { W with
          dispatched := W.dispatched ++ [p]
          objects := W.objects.set (p - 1) { o with m_completionHandled := true }
          invoked := W.invoked ++ [(o.m_handler, p)] } with hW1
  have hp1 : deref W1.objects p = some { o with m_completionHandled := true } :=
    deref_set_self _ _ _ _ hp
  obtain ⟨h1, h2, h3, h4, h5, h6⟩ := HandleCompletionTimes_done env p _ m W1 hp1 rfl
  refine ⟨h2, h1, h3, h4, h5, h6, ?_⟩
  exact HandleCompletion_done env p _ _ (h1 ▸ hp1) rfl

/-- C1 instantiated: three calls on the first tracked operation. -/
theorem HandleCompletion_invokes_callback_once_witness :
    deref twoTracked.objects 1 = some ⟨100, 200, false, 7, 1⟩ ∧
    (HandleCompletionTimes raisingEnv 1 3 twoTracked).invoked = twoTracked.invoked ++ [(7, 1)] :=
  ⟨by decide,
    (HandleCompletion_invokes_callback_once raisingEnv twoTracked 1 ⟨100, 200, false, 7, 1⟩
      (by decide) rfl 3 (by decide)).1⟩

/-- C2: in a state whose registry entries name operation objects, the wait-set
construction succeeds; its cell 0 holds `m_opsChanged`; its cells
`1 .. handleCount - 1` are exactly the completion signals of the registry
entries for which `HasCompleted()` is false, in registry order, one cell per
entry, each paired with its own operation in the operations array; and no
operation for which `HasCompleted()` is true is in the wait-set. -/
theorem build_waitset_snapshot (env : Env) (W : World) (hreg : RegistryValid W) :
    ∃ ws, MonitorThreadFunc.build env W = Except.ok ws ∧
      ws.handles[0]? = some (some W.m_opsChanged) ∧
      ws.handleCount = 1 + (pendingOps env W).length ∧
      ws.handles.take ws.handleCount =
        some W.m_opsChanged :: (pendingOps env W).map (fun p => some (hEventOf W p)) ∧
      ws.operations.take ws.handleCount = some 0 :: (pendingOps env W).map some ∧
      (∀ i p, 1 ≤ i → i < ws.handleCount → ws.operations[i]? = some (some p) →
        p ∈ W.m_operations ∧ completedAt env W p = false ∧
        ws.handles[i]? = some (some (hEventOf W p))) ∧
      (W.m_operations.Nodup → (pendingOps env W).Nodup) := by
  obtain ⟨ws, h1, h2, _, _, _, h6, h7⟩ := build_spec env W hreg
  refine ⟨ws, h1, ?_, h2, h6, h7, ?_, fun h => h.filter _⟩
  · have h0 : 0 < ws.handleCount := by omega
    rw [← List.getElem?_take_of_lt h0, h6]; simp
  · intro i p hi1 hi hp
    obtain ⟨q, _, hq, hq2, hq3⟩ := build_slots env W ws h2 h6 h7 i hi1 hi
    rw [hq2] at hp
    have : q = p := by simpa using hp
    subst this
    exact ⟨(pendingOps_mem env W q hq).1, (pendingOps_mem env W q hq).2, hq3⟩

/-- C2 instantiated on the state with two tracked operations. -/
theorem build_waitset_snapshot_witness :
    RegistryValid twoTracked ∧
    ∃ ws, MonitorThreadFunc.build quietEnv twoTracked = Except.ok ws ∧
      ws.handles[0]? = some (some twoTracked.m_opsChanged) ∧
      ws.handleCount = 1 + (pendingOps quietEnv twoTracked).length :=
  ⟨by decide,
    match build_waitset_snapshot quietEnv twoTracked (by decide) with
    | ⟨ws, h1, h2, h3, _⟩ => ⟨ws, h1, h2, h3⟩⟩

/-- C6: once `Init` has created the mutation signal, `TrackOperation` appends
exactly one entry to the registry, leaving the earlier entries and their
objects as they are; the entry names a new operation object that carries the
given context and callback, has its dispatched flag false, and whose own
descriptor holds a new event, manual-reset and not signaled, distinct from the
mutation signal; the caller receives the address of that descriptor; and the
mutation signal is signaled afterwards. -/
theorem TrackOperation_appends_operation (W : World) (overlapped data : Addr) (handler : Nat)
    (hinit : (deref W.events W.m_opsChanged).isSome = true) :
    ∃ (op : Addr) (ov : OVERLAPPED),
      -- the registry
      (TrackOperation overlapped data handler W).2.m_operations = W.m_operations ++ [op] ∧
      -- the new operation
      deref W.objects op = none ∧
      deref (TrackOperation overlapped data handler W).2.objects op =
        some ⟨overlapped, data, false, handler, (TrackOperation overlapped data handler W).1⟩ ∧
      (∀ p, (deref W.objects p).isSome = true →
        deref (TrackOperation overlapped data handler W).2.objects p = deref W.objects p) ∧
      -- its descriptor and completion signal
      deref W.blocks (TrackOperation overlapped data handler W).1 = none ∧
      deref (TrackOperation overlapped data handler W).2.blocks
        (TrackOperation overlapped data handler W).1 = some ov ∧
      ov.hEvent ≠ W.m_opsChanged ∧
      deref W.events ov.hEvent = none ∧
      deref (TrackOperation overlapped data handler W).2.events ov.hEvent = some ⟨true, false⟩ ∧
      -- the mutation signal
      (TrackOperation overlapped data handler W).2.m_opsChanged = W.m_opsChanged ∧
      (deref (TrackOperation overlapped data handler W).2.events W.m_opsChanged).map
        Event.signaled = some true := by
  have hb := (deref_isSome_iff _ _).mp hinit
  obtain ⟨e, he⟩ := Option.isSome_iff_exists.mp hinit
  have hne : W.events.length + 1 ≠ W.m_opsChanged := by omega
  refine ⟨W.objects.length + 1, ⟨0, 0, 0, 0, W.events.length + 1⟩, ?_⟩
  rw [TrackOperation_eq]
  set W2 : World := { W with
            events := W.events ++ [⟨true, false⟩]
            blocks := W.blocks ++ [⟨0, 0, 0, 0, W.events.length + 1⟩]
            objects := W.objects ++
              [⟨overlapped, data, false, handler, W.blocks.length + 1⟩]
            m_operations := W.m_operations ++ [W.objects.length + 1] } with hW2
  obtain ⟨h1, h2, h3, h4, -, -⟩ := SetEvent_fields W.m_opsChanged W2
  have he2 : deref W2.events W.m_opsChanged = some e := by
    rw [← he]; exact deref_append_old _ _ _ hinit
  refine ⟨by rw [h4], deref_length_succ _, ?_, ?_, deref_length_succ _, ?_, hne,
    deref_length_succ _, ?_, by rw [h3], ?_⟩
  · show deref (SetEvent W.m_opsChanged W2).objects _ = _
    rw [h2]; exact deref_append_new _ _
  · intro p hp
    show deref (SetEvent W.m_opsChanged W2).objects _ = _
    rw [h2]; exact deref_append_old _ _ _ hp
  · show deref (SetEvent W.m_opsChanged W2).blocks _ = _
    rw [h1]; exact deref_append_new _ _
  · show deref (SetEvent W.m_opsChanged W2).events _ = _
    rw [SetEvent_other _ _ _ hne]; exact deref_append_new _ _
  · show Option.map _ (deref (SetEvent W.m_opsChanged W2).events _) = _
    rw [SetEvent_self _ _ e he2]; rfl

/-- C6 instantiated on the state right after `Init`. -/
theorem TrackOperation_appends_operation_witness :
    (deref (Init World.initial).events (Init World.initial).m_opsChanged).isSome = true ∧
    ∃ op, (TrackOperation 100 200 7 (Init World.initial)).2.m_operations =
      (Init World.initial).m_operations ++ [op] :=
  ⟨by decide,
    match TrackOperation_appends_operation (Init World.initial) 100 200 7 (by decide) with
    | ⟨op, _, h, _⟩ => ⟨op, h⟩⟩

/-- C7 refuted: both operations are signaled and the handler of the first
raises; the wake ends the monitor thread with that failure and the second
operation, in the higher slot, is not dispatched. -/
theorem callback_failure_not_isolated_counterexample :
    slotSignaled bothSignaled twoWaitSet.handles 2 = true ∧
    ¬ (2 ∈ (MonitorThreadFunc.wake raisingEnv twoWaitSet (WAIT_OBJECT_0 + 1) bothSignaled).2.dispatched)
    ∧ (MonitorThreadFunc.wake raisingEnv twoWaitSet (WAIT_OBJECT_0 + 1) bothSignaled).1 =
      Control.crashed (Fault.callbackRaised 7 1) := by
  decide

/-- C7 as amended: on a well-formed wait-set, when the callback of the
signaled, not yet dispatched operation in cell `j` raises and no callback of a
signaled cell before it does, the failure is not caught: it ends the sweep and
the monitor thread; `HandleCompletion` has been called on the signaled cells
from the reported slot up to and including `j` and on no cell above `j`; the
registry is left as it is. -/
theorem wake_callback_failure_propagates (env : Env) (ws : WaitSet) (W : World) (k j : Nat)
    (hok : WaitSetOK ws W) (hkj : k ≤ j) (hj1 : 1 ≤ j) (hj : j < ws.handleCount)
    (hs : slotSignaled W ws.handles j = true)
    (hflag : flagOf W (ws.opAt j) = false)
    (hraise : env.raises (handlerOf W (ws.opAt j)) (ws.opAt j) = true)
    (hbefore : ∀ i, k ≤ i → i < j → 0 < i → slotSignaled W ws.handles i = true →
      env.raises (handlerOf W (ws.opAt i)) (ws.opAt i) = false) :
    (MonitorThreadFunc.wake env ws (WAIT_OBJECT_0 + k) W).1 =
      Control.crashed (Fault.callbackRaised (handlerOf W (ws.opAt j)) (ws.opAt j)) ∧
    (MonitorThreadFunc.wake env ws (WAIT_OBJECT_0 + k) W).2.dispatched =
      W.dispatched ++
        ((List.range' k (j + 1 - k)).filter
          (fun i => decide (0 < i) && slotSignaled W ws.handles i)).map ws.opAt ∧
    (MonitorThreadFunc.wake env ws (WAIT_OBJECT_0 + k) W).2.m_operations = W.m_operations := by
  rw [wake_eq_dispatchAll env ws W k hok (by omega)]
  have hvalid := dueOps_valid W ws k hok
  rw [dueSlots_split W ws k j hkj hj1 hj hs] at hvalid ⊢
  rw [List.map_append, List.map_cons] at hvalid ⊢
  set pre := ((List.range' k (j - k)).filter
      (fun i => decide (0 < i) && slotSignaled W ws.handles i)).map ws.opAt with hpre
  have hpre_mem : ∀ p ∈ pre, ∃ i, k ≤ i ∧ i < j ∧ 0 < i ∧
      slotSignaled W ws.handles i = true ∧ ws.opAt i = p := by
    intro p hp
    obtain ⟨i, hi, rfl⟩ := List.mem_map.mp hp
    rw [List.mem_filter, List.mem_range'_1] at hi
    simp only [Bool.and_eq_true, decide_eq_true_eq] at hi
    exact ⟨i, hi.1.1, by omega, hi.2.1, hi.2.2, rfl⟩
  have hpre_ret : ∀ p ∈ pre, env.raises (handlerOf W p) p = false := by
    intro p hp
    obtain ⟨i, a1, a2, a3, a4, rfl⟩ := hpre_mem p hp
    exact hbefore i a1 a2 a3 a4
  have hnotin : ws.opAt j ∉ pre := by
    intro hin
    have := hpre_ret _ hin
    rw [hraise] at this
    simp at this
  obtain ⟨c1, c2, _, c4⟩ := dispatchAll_ok env pre W
    (fun p hp => hvalid p (List.mem_append_left _ hp)) hpre_ret
  obtain ⟨_, _, d3, _, d5, d6⟩ := dispatchAll_frame env pre W
  rw [dispatchAll_append env pre _ W c1]
  have hv1 : (deref (dispatchAll env pre W).1.objects (ws.opAt j)).isSome = true := by
    rw [d5]; exact hvalid _ (List.mem_append_right _ (List.mem_cons_self _ _))
  have hfault : (HandleCompletion env (ws.opAt j) (dispatchAll env pre W).1).2 =
      some (Fault.callbackRaised (handlerOf W (ws.opAt j)) (ws.opAt j)) := by
    rw [hc_fault env _ _ hv1, c4, d6]
    simp [hnotin, hflag, hraise]
  rw [dispatchAll_cons_fault env _ _ _ _ hfault]
  refine ⟨rfl, ?_, ?_⟩
  · show (HandleCompletion env (ws.opAt j) (dispatchAll env pre W).1).1.dispatched = _
    rw [hc_dispatched env _ _ hv1, c2]
    rw [show j + 1 - k = (j - k) + 1 by omega, List.range'_1_concat, List.filter_append,
      List.map_append, show k + (j - k) = j by omega]
    simp [List.filter_cons, hs, hpre, show 0 < j from hj1]
  · show (HandleCompletion env (ws.opAt j) (dispatchAll env pre W).1).1.m_operations = _
    rw [(hc_frame env _ _).2.2.1, d3]

/-- C7 as amended, instantiated. -/
theorem wake_callback_failure_propagates_witness :
    WaitSetOK twoWaitSet bothSignaled ∧
    (MonitorThreadFunc.wake raisingEnv twoWaitSet (WAIT_OBJECT_0 + 1) bothSignaled).1 =
      Control.crashed (Fault.callbackRaised (handlerOf bothSignaled (twoWaitSet.opAt 1))
        (twoWaitSet.opAt 1)) :=
  ⟨by decide,
    (wake_callback_failure_propagates raisingEnv twoWaitSet bothSignaled 1 1 (by decide)
      (by decide) (by decide) (by decide) rfl rfl rfl
      (fun i h1 h2 _ => absurd h1 (by omega))).1⟩

/-- C8: for every wait-set, every wait result and every signal state, each
call of `HandleCompletion` made in a wake is on the operation of a cell
`1 ≤ j < handleCount` whose signal is signaled; and with an operation whose
signal is unset in cell 1 and a not yet dispatched operation whose signal is
set in cell 2, every in-range wait result makes the wake invoke the callback of
the second and no other. -/
theorem wake_never_dispatches_unsignaled (env : Env) (ws : WaitSet) (result : DWORD) (W : World) :
    (∀ p ∈ newCalls W (MonitorThreadFunc.wake env ws result W).2,
      ∃ j, 1 ≤ j ∧ j < ws.handleCount ∧ ws.operations[j]? = some (some p) ∧
        slotSignaled W ws.handles j = true) ∧
    (WaitSetOK ws W → ws.handleCount = 3 →
      slotSignaled W ws.handles 1 = false → slotSignaled W ws.handles 2 = true →
      flagOf W (ws.opAt 2) = false → result < WAIT_OBJECT_0 + 3 →
      (MonitorThreadFunc.wake env ws result W).2.invoked =
        W.invoked ++ [(handlerOf W (ws.opAt 2), ws.opAt 2)] ∧
      (MonitorThreadFunc.wake env ws result W).2.dispatched =
        W.dispatched ++ [ws.opAt 2]) := by
  constructor
  · intro p hp
    obtain ⟨j, a1, _, a3, a4, a5, _⟩ := wake_sound env ws result W p hp
    exact ⟨j, a1, a3, a4, a5⟩
  · intro hok hc3 hA hB hfl hr
    have hr3 : @LT.lt Nat _ result (WAIT_OBJECT_0 + 3) := hr
    simp only [WAIT_OBJECT_0, Nat.zero_add] at hr3
    have hdue : dueSlots W ws result = [2] := by
      unfold dueSlots
      rw [hc3]
      have : @Eq Nat result 0 ∨ @Eq Nat result 1 ∨ @Eq Nat result 2 := by omega
      rcases this with h | h | h <;> subst h <;> simp [List.range', List.filter_cons, hA, hB]
    have hv : (deref W.objects (ws.opAt 2)).isSome = true := by
      obtain ⟨_, _, _, _, h5, _⟩ :=
        slotOK_parts W ws 2 (WaitSetOK_slot ws W hok 2 (by omega) (by omega))
      exact h5
    have e : result = WAIT_OBJECT_0 + result := by simp [WAIT_OBJECT_0]
    have hlt : @LT.lt Nat _ result ws.handleCount := by rw [hc3]; exact hr3
    rw [e, wake_world env ws W result hok hlt, hdue, List.map_cons, List.map_nil,
      dispatchAll_single, hc_invoked, hc_dispatched env _ _ hv]
    simp [hfl]

/-- C8 instantiated: the first signal unset, the second set. -/
theorem wake_never_dispatches_unsignaled_witness :
    WaitSetOK twoWaitSet secondSignaled ∧
    (MonitorThreadFunc.wake quietEnv twoWaitSet 2 secondSignaled).2.invoked =
      secondSignaled.invoked ++
        [(handlerOf secondSignaled (twoWaitSet.opAt 2), twoWaitSet.opAt 2)] :=
  ⟨by decide,
    ((wake_never_dispatches_unsignaled quietEnv twoWaitSet 2 secondSignaled).2
      (by decide) rfl rfl rfl rfl (by decide)).1⟩

/-- C9 refuted: with sixty-four tracked operations the wait-set has sixty-five
handles; the monitor builds it and then, step after step, stays waiting on that
same wait-set with the state unchanged: nothing is reported. -/
theorem wait_ceiling_not_reported_counterexample :
    MAXIMUM_WAIT_OBJECTS < manyWaitSet.handleCount ∧
    MonitorThreadFunc.step quietEnv (Control.rebuild, manyTracked) =
      some (Control.waiting manyWaitSet, manyTracked) ∧
    ¬ (MonitorThreadFunc.run quietEnv 8 (Control.waiting manyWaitSet, manyTracked) ≠
      (Control.waiting manyWaitSet, manyTracked)) := by
  decide

/-- C9 as amended: when the wait returns a result outside
`[WAIT_OBJECT_0, WAIT_OBJECT_0 + handleCount)` the monitor reports nothing: it
dispatches no operation, changes no state and waits again on the same wait-set;
in particular, when the wait-set has more handles than a single wait accepts,
every wait fails and the monitor stays in that loop. -/
theorem wait_failure_is_retried_silently (env : Env) (ws : WaitSet) (W : World) :
    (∀ result : DWORD, ¬ (WAIT_OBJECT_0 ≤ result ∧ result < WAIT_OBJECT_0 + ws.handleCount) →
      MonitorThreadFunc.wake env ws result W = (Control.waiting ws, W)) ∧
    (MAXIMUM_WAIT_OBJECTS < ws.handleCount → ws.handleCount < 2 ^ 31 →
      WaitForMultipleObjects ws.handleCount ws.handles W = some (WAIT_FAILED, W) ∧
      MonitorThreadFunc.step env (Control.waiting ws, W) = some (Control.waiting ws, W) ∧
      ∀ n, MonitorThreadFunc.run env n (Control.waiting ws, W) = (Control.waiting ws, W)) := by
  constructor
  · intro result h
    simp [MonitorThreadFunc.wake, h]
  · intro hmax hint
    exact ⟨wfmo_ceiling _ _ W hmax, step_ceiling env ws W hmax hint,
      run_ceiling env ws W hmax hint⟩

/-- C9 as amended, instantiated on the wait-set of sixty-five handles. -/
theorem wait_failure_is_retried_silently_witness :
    MAXIMUM_WAIT_OBJECTS < manyWaitSet.handleCount ∧
    MonitorThreadFunc.run quietEnv 100 (Control.waiting manyWaitSet, manyTracked) =
      (Control.waiting manyWaitSet, manyTracked) :=
  ⟨by decide,
    ((wait_failure_is_retried_silently quietEnv manyWaitSet manyTracked).2
      (by decide) (by decide)).2.2 100⟩

/-- C10: in a state whose registry entries name operation objects, one
iteration of the monitor makes no out-of-bounds access, reads no unwritten
cell and dereferences no null or dangling operation:
`1 ≤ handleCount ≤ 1 + size = maxHandleCount`, both arrays have
`maxHandleCount` cells, cell 0 of the operations array is `NULL`, and for every
in-range wait result, in any later state that still holds the operation
objects, the wake ends normally or by a handler that raised, and
`HandleCompletion` is only called on non-null operations of the registry held
in cells `1 ≤ j < handleCount`. -/
theorem monitor_iteration_memory_safe (env : Env) (W : World) (hreg : RegistryValid W) :
    ∃ ws, MonitorThreadFunc.build env W = Except.ok ws ∧
      1 ≤ ws.handleCount ∧ ws.handleCount ≤ 1 + W.m_operations.length ∧
      ws.maxHandleCount = 1 + W.m_operations.length ∧
      ws.handles.length = ws.maxHandleCount ∧ ws.operations.length = ws.maxHandleCount ∧
      ws.operations[0]? = some (some 0) ∧
      ∀ (W1 : World) (result : DWORD),
        (∀ p, (deref W.objects p).isSome = true → (deref W1.objects p).isSome = true) →
        WAIT_OBJECT_0 ≤ result → result < WAIT_OBJECT_0 + ws.handleCount →
        ((MonitorThreadFunc.wake env ws result W1).1 = Control.rebuild ∨
          ∃ h p, (MonitorThreadFunc.wake env ws result W1).1 =
            Control.crashed (Fault.callbackRaised h p)) ∧
        ∀ p ∈ newCalls W1 (MonitorThreadFunc.wake env ws result W1).2,
          p ≠ 0 ∧ p ∈ W.m_operations ∧ (deref W1.objects p).isSome = true ∧
          ∃ j, 1 ≤ j ∧ j < ws.handleCount ∧ ws.operations[j]? = some (some p) := by
  obtain ⟨ws, h1, h2, h3, h4, h5, h6, h7⟩ := build_spec env W hreg
  have hlen : (pendingOps env W).length ≤ W.m_operations.length := List.length_filter_le _ _
  have hz : ws.operations[0]? = some (some 0) := by
    have h0 : 0 < ws.handleCount := by omega
    rw [← List.getElem?_take_of_lt h0, h7]; simp
  refine ⟨ws, h1, by omega, by omega, h3, by omega, by omega, hz, ?_⟩
  intro W1 result hext hr1 hr2
  have hcell : ∀ j, 0 < j → j < ws.handleCount → cellOK W1 ws j = true := by
    intro j hj1 hj2
    obtain ⟨q, _, hq, hq2, hq3⟩ := build_slots env W ws h2 h6 h7 j hj1 hj2
    have hv := hext q (opValid_isSome W q (hreg q (pendingOps_mem env W q hq).1))
    simp [cellOK, hq2, hq3, hv]
  constructor
  · obtain ⟨_, _, _, hb⟩ := sweep_sound env ws W1
      (ws.handleCount - (result - WAIT_OBJECT_0)) (result - WAIT_OBJECT_0) W1 (fun _ h => h)
    have hr3 : @LT.lt Nat _ result (WAIT_OBJECT_0 + ws.handleCount) := hr2
    have hben := hb (fun j _ b2 b3 => hcell j b3 (by
      simp only [WAIT_OBJECT_0] at b2 hr3; omega))
    simp only [MonitorThreadFunc.wake, hr1, hr2, and_self, if_true]
    cases hsw : MonitorThreadFunc.sweep env ws
        (ws.handleCount - (result - WAIT_OBJECT_0)) (result - WAIT_OBJECT_0) W1 with
    | mk W2 f =>
      rw [hsw] at hben
      rcases hben with hn | ⟨h, p, hf⟩
      · simp only at hn; subst hn; left; rfl
      · simp only at hf; subst hf; right; exact ⟨h, p, rfl⟩
  · intro p hp
    obtain ⟨j, a1, _, a3, a4, _, a6⟩ := wake_sound env ws result W1 p hp
    obtain ⟨q, _, hq, hq2, _⟩ := build_slots env W ws h2 h6 h7 j a1 a3
    rw [hq2] at a4
    have hqp : q = p := by simpa using a4
    subst hqp
    refine ⟨?_, (pendingOps_mem env W q hq).1, a6, j, a1, a3, hq2⟩
    intro h0
    rw [h0] at a6
    simp [deref] at a6

/-- C10 instantiated on the state with two tracked operations. -/
theorem monitor_iteration_memory_safe_witness :
    RegistryValid twoTracked ∧
    ∃ ws, MonitorThreadFunc.build quietEnv twoTracked = Except.ok ws ∧
      1 ≤ ws.handleCount ∧ ws.handleCount ≤ 1 + twoTracked.m_operations.length :=
  ⟨by decide,
    match monitor_iteration_memory_safe quietEnv twoTracked (by decide) with
    | ⟨ws, h1, h2, h3, _⟩ => ⟨ws, h1, h2, h3⟩⟩

end OSpy
